import Mathlib

/-!
# Verification of the popsicle-cache core (src/unnamed/part_000, TypeScript variant)

Shallow embedding of the HTTP response-caching plugin: header freshness
calculation (`getCacheControl`, `getExpiresIn`, `getLastModifiedExpiration`),
cache policies (`cacheablesStandard`, `ttlsStandard`, `ttlsForever`,
`getIdsStandard`), the Vary machinery (`getVary`, `variesOn`), the standard
revalidation handler (`handlersStandard`), the body serializers
(`serializersStandard` over a JSON value model, and the byte-capped stream
serializer), and the orchestrator (`shouldCache`, `handle`, `forceUpdate`).

JavaScript numbers are modelled by `JNum` (an exact rational, `Infinity`, or
`NaN`); times are rationals.  Asynchrony is flattened: the forwarded call is a
function `Request → Except JsError Response`, and store writes are collected in
a list.  `Date.parse` and `JSON.parse`/`JSON.stringify` are platform builtins,
modelled from the ECMAScript specification on the documented grammar fragment
(UTC ISO-8601 date-times; JSON with integer numerals).
-/

/-- JavaScript errors, as far as the plugin inspects them: `plugin.handle` only
reads `err.code`. -/
structure JsError where
  code : Option String
deriving DecidableEq, Repr

/-- A JavaScript number: exact rational, positive infinity, or NaN.  Negative
infinity never arises in this code path, so it is not modelled. -/
inductive JNum where
  | num (q : ℚ)
  | inf
  | nan
deriving DecidableEq, Repr

/-- JS addition on the modelled numbers (NaN absorbs; `Infinity + x = Infinity`
for the non-NaN `x` that occur here). -/
def JNum.add : JNum → JNum → JNum
  | .nan, _ => .nan
  | _, .nan => .nan
  | .inf, _ => .inf
  | _, .inf => .inf
  | .num a, .num b => .num (a + b)

/-- JS subtraction, used only on `Date.parse` results (finite or NaN; the
source never subtracts infinities). -/
def JNum.sub : JNum → JNum → JNum
  | .num a, .num b => .num (a - b)
  | _, _ => .nan

/-- JS `<` comparison: any comparison against NaN is false. -/
def JNum.lt : JNum → JNum → Bool
  | .nan, _ => false
  | _, .nan => false
  | .num a, .num b => decide (a < b)
  | .num _, .inf => true
  | .inf, _ => false

/-- `Math.min` on the modelled numbers (NaN absorbs). -/
def JNum.jmin : JNum → JNum → JNum
  | .nan, _ => .nan
  | _, .nan => .nan
  | .num a, .num b => .num (min a b)
  | .num a, .inf => .num a
  | .inf, b => b

/-- JS division by 10 (used by the last-modified heuristic). -/
def JNum.div10 : JNum → JNum
  | .num a => .num (a / 10)
  | .inf => .inf
  | .nan => .nan

/-- Non-negativity of a JS number; NaN is not non-negative, `Infinity` is. -/
def JNum.nonneg : JNum → Bool
  | .num a => decide (0 ≤ a)
  | .inf => true
  | .nan => false

/-- JS string truthiness of a possibly-undefined string: `undefined` and the
empty string are falsy. -/
def strTruthy : Option String → Bool
  | none => false
  | some s => s ≠ ""

/-- Case-insensitive equality of header names (headers are matched by
lower-cased name, as popsicle does). -/
def headerEq (a b : String) : Bool :=
  a.toList.map Char.toLower == b.toList.map Char.toLower

/-- Look a header up in a name/value list, case-insensitively; `none` models
JavaScript `undefined` for an absent header. -/
def headerGet (hs : List (String × String)) (k : String) : Option String :=
  match hs.find? (fun p => headerEq p.1 k) with
  | some p => some p.2
  | none => none

/-- Replace the value of a header, or append it when absent (popsicle
`set`). -/
def headerSet (hs : List (String × String)) (k v : String) : List (String × String) :=
  if hs.any (fun p => headerEq p.1 k) then
    hs.map (fun p => if headerEq p.1 k then (p.1, v) else p)
  else
    hs ++ [(k, v)]

/-- The JSON value model for response bodies handled by the standard (JSON)
serializer.  Numbers are modelled as exact integers (the subset of IEEE
doubles whose `JSON.stringify` image is an integer numeral); objects are
insertion-ordered member lists, as JavaScript objects are. -/
inductive Json where
  | null
  | bool (b : Bool)
  | num (n : Int)
  | str (s : String)
  | arr (items : List Json)
  | obj (members : List (String × Json))

/-- A popsicle `Response`, as far as the plugin reads it: `url`, `body`,
`rawHeaders` (modelled as name/value pairs), `status`, `statusText`; header
lookup is derived from `rawHeaders`. -/
structure Response where
  url : String
  body : Json
  rawHeaders : List (String × String)
  status : Nat
  statusText : String

/-- Header lookup on a response (popsicle `res.get`, case-insensitive). -/
def Response.get (res : Response) (k : String) : Option String :=
  headerGet res.rawHeaders k

/-- popsicle `res.statusType()`: the status class (2/3/4/5). -/
def Response.statusType (res : Response) : Nat :=
  res.status / 100

/-- A popsicle `Request`, as far as the plugin reads and mutates it. -/
structure Request where
  method : String
  url : String
  headers : List (String × String)

/-- Header lookup on a request (popsicle `req.get`). -/
def Request.get (req : Request) (k : String) : Option String :=
  headerGet req.headers k

/-- Header update on a request (popsicle `req.set`), used for the conditional
revalidation headers. -/
def Request.set (req : Request) (k v : String) : Request :=
  { req with headers := headerSet req.headers k v }

/-- The singular entry serialized to the cache (`CacheItem`).  A vary value of
`none` models the `undefined` stored when the response lacks the varied
header. -/
structure CacheItem where
  body : String
  rawHeaders : List (String × String)
  url : String
  status : Nat
  statusText : String
  varyHeaders : List (String × Option String)

/-- What the store returns on a hit: the item plus `ttl` and the `stored`
write timestamp (milliseconds). -/
structure StoredResult where
  ttl : JNum
  stored : ℚ
  item : CacheItem

/-- The cached response instance (`CachedResponse extends Response`): a
response plus the cache metadata. -/
structure CachedResponse extends Response where
  ttl : JNum
  stored : ℚ
  varyHeaders : List (String × Option String)

/-- Header lookup on a cached response (inherited from `Response`). -/
def CachedResponse.get (c : CachedResponse) (k : String) : Option String :=
  c.toResponse.get k

/-- The dynamic result type of a handler: JavaScript distinguishes the two by
`res instanceof CachedResponse`. -/
inductive HandlerResult where
  | cached (c : CachedResponse)
  | plain (r : Response)

/-- The plain response a handler result denotes (both alternatives are
responses at runtime). -/
def HandlerResult.response : HandlerResult → Response
  | .cached c => c.toResponse
  | .plain r => r

/-! ## The `Cache-Control` regular expressions

`getCacheControl` runs `/\bmax-age=(\d+)\b/i`, `/\bmust-revalidate\b/i`,
`/\bno-cache\b/i` and `/\bimmutable\b/i` over the header value.  The `/i` flag
is modelled by lower-casing the haystack (the needles are lower-case ASCII),
and `\b` by the ECMAScript word-character class `[A-Za-z0-9_]`. -/

/-- ECMAScript regexp word character (`\w`). -/
def isWordChar (c : Char) : Bool :=
  ('a' ≤ c && c ≤ 'z') || ('A' ≤ c && c ≤ 'Z') || ('0' ≤ c && c ≤ '9') || c = '_'

/-- ASCII decimal digit. -/
def isDigitChar (c : Char) : Bool :=
  '0' ≤ c && c ≤ '9'

/-- Whether a `\b` assertion holds just before a word character, given the
previous character (`none` at the start of the input). -/
def boundaryBefore : Option Char → Bool
  | none => true
  | some c => !isWordChar c

/-- Whether a `\b` assertion holds just after a word character, given the rest
of the input. -/
def boundaryAfter : List Char → Bool
  | [] => true
  | c :: _ => !isWordChar c

/-- `/\btok\b/.test(hay)` for a literal token that starts and ends with word
characters: scan every start position with its preceding character. -/
def hasWordToken (tok : List Char) : Option Char → List Char → Bool
  | prev, c :: cs =>
      (boundaryBefore prev && tok.isPrefixOf (c :: cs)
        && boundaryAfter ((c :: cs).drop tok.length))
      || hasWordToken tok (some c) cs
  | _, [] => false

/-- `/\btok\b/i.test(s)`: the case-insensitive word-token test. -/
def regexTestWord (s : String) (tok : String) : Bool :=
  hasWordToken tok.toList none (s.toList.map Char.toLower)

/-- Value of a digit character. -/
def digitVal (c : Char) : Nat :=
  c.toNat - '0'.toNat

/-- `parseInt(ds, 10)` on a non-empty digit run. -/
def digitsToNat (ds : List Char) : Nat :=
  ds.foldl (fun acc c => acc * 10 + digitVal c) 0

/-- `/\bmax-age=(\d+)\b/.exec(hay)`: find the first position where the whole
pattern matches (boundary, literal `max-age=`, a digit run, boundary) and
return the captured digits' value. -/
def execMaxAge : Option Char → List Char → Option Nat
  | prev, c :: cs =>
      let hay := c :: cs
      let pat := ['m', 'a', 'x', '-', 'a', 'g', 'e', '=']
      if boundaryBefore prev && pat.isPrefixOf hay then
        let post := hay.drop pat.length
        let ds := post.takeWhile isDigitChar
        if !ds.isEmpty && boundaryAfter (post.drop ds.length) then
          some (digitsToNat ds)
        else
          execMaxAge (some c) cs
      else
        execMaxAge (some c) cs
  | _, [] => none

/-- The parsed `Cache-Control` directives.  When the header is absent or empty
JavaScript leaves the booleans `undefined`, which every use coerces to
`false`, so they are modelled as `false`. -/
structure CacheControl where
  maxAge : Option ℚ
  noCache : Bool
  immutable : Bool
  mustRevalidate : Bool
deriving DecidableEq, Repr

/-- `getCacheControl(res)`: run the directive regexes over the `Cache-Control`
header; `max-age=N` yields `N * 1000` milliseconds. -/
def getCacheControl (res : Response) : CacheControl :=
  let cacheControl := res.get "Cache-Control"
  if strTruthy cacheControl then
    let s := (cacheControl.getD "")
    let low := s.toList.map Char.toLower
    { maxAge := (execMaxAge none low).map (fun n => ((n : ℚ) * 1000))
      noCache := regexTestWord s "no-cache"
      immutable := regexTestWord s "immutable"
      mustRevalidate := regexTestWord s "must-revalidate" }
  else
    { maxAge := none, noCache := false, immutable := false, mustRevalidate := false }

/-! ## `Date.parse`

A platform builtin, modelled from the ECMAScript specification on the UTC
ISO-8601 grammar fragment `YYYY-MM-DD` and `YYYY-MM-DDTHH:MM:SS(.SSS)?Z`
(proleptic Gregorian calendar).  Strings outside this fragment are mapped to
NaN, as the engine does for unparsable dates; formats the engine would accept
beyond this fragment (RFC 1123 dates, local-time ISO strings) are outside the
modelled domain. -/

/-- Proleptic Gregorian leap year. -/
def isLeapYear (y : Nat) : Bool :=
  (y % 4 = 0 && y % 100 ≠ 0) || y % 400 = 0

/-- Days in a month. -/
def daysInMonth (y m : Nat) : Nat :=
  if m = 1 then 31
  else if m = 2 then (if isLeapYear y then 29 else 28)
  else if m = 3 then 31
  else if m = 4 then 30
  else if m = 5 then 31
  else if m = 6 then 30
  else if m = 7 then 31
  else if m = 8 then 31
  else if m = 9 then 30
  else if m = 10 then 31
  else if m = 11 then 30
  else 31

/-- Days in the months strictly before month `m` of year `y`. -/
def daysBeforeMonth (y m : Nat) : Nat :=
  (List.range (m - 1)).foldl (fun acc i => acc + daysInMonth y (i + 1)) 0

/-- Days from 0000-01-01 to the start of year `y` (proleptic Gregorian;
year 0 is a leap year). -/
def daysBeforeYear (y : Nat) : Nat :=
  if y = 0 then 0
  else 365 * y + (y - 1) / 4 - (y - 1) / 100 + (y - 1) / 400 + 1

/-- Days from the Unix epoch to `y-m-d` (may be negative before 1970). -/
def daysSinceEpoch (y m d : Nat) : Int :=
  (daysBeforeYear y + daysBeforeMonth y m + (d - 1) : Int) - 719528

/-- Read exactly two digit characters. -/
def read2 : List Char → Option (Nat × List Char)
  | a :: b :: rest =>
      if isDigitChar a && isDigitChar b then
        some (digitVal a * 10 + digitVal b, rest)
      else none
  | _ => none

/-- Read exactly four digit characters (the year). -/
def read4 : List Char → Option (Nat × List Char)
  | a :: b :: c :: d :: rest =>
      if isDigitChar a && isDigitChar b && isDigitChar c && isDigitChar d then
        some (digitVal a * 1000 + digitVal b * 100 + digitVal c * 10 + digitVal d, rest)
      else none
  | _ => none

/-- Read exactly three digit characters (the milliseconds). -/
def read3 : List Char → Option (Nat × List Char)
  | a :: b :: c :: rest =>
      if isDigitChar a && isDigitChar b && isDigitChar c then
        some (digitVal a * 100 + digitVal b * 10 + digitVal c, rest)
      else none
  | _ => none

/-- The optional time part after the date: empty (UTC midnight) or
`THH:MM:SS(.SSS)?Z`.  Returns milliseconds into the day. -/
def parseTimePart : List Char → Option Nat
  | [] => some 0
  | 'T' :: rest => do
      let (h, rest) ← read2 rest
      match rest with
      | ':' :: rest => do
          let (mi, rest) ← read2 rest
          match rest with
          | ':' :: rest => do
              let (s, rest) ← read2 rest
              let (ms, rest) ←
                match rest with
                | '.' :: rest => read3 rest
                | _ => some (0, rest)
              match rest with
              | ['Z'] =>
                  if h ≤ 23 && mi ≤ 59 && s ≤ 59 then
                    some (((h * 60 + mi) * 60 + s) * 1000 + ms)
                  else none
              | _ => none
          | _ => none
      | _ => none
  | _ => none

/-- Milliseconds since the Unix epoch of an ISO-8601 UTC date-time string, or
`none` outside the modelled grammar. -/
def isoToMillis (cs : List Char) : Option ℚ := do
  let (y, rest) ← read4 cs
  match rest with
  | '-' :: rest => do
      let (mo, rest) ← read2 rest
      match rest with
      | '-' :: rest => do
          let (d, rest) ← read2 rest
          let ms ← parseTimePart rest
          if 1 ≤ mo && mo ≤ 12 && 1 ≤ d && d ≤ daysInMonth y mo then
            some ((daysSinceEpoch y mo d * 86400000 + (ms : Int) : Int) : ℚ)
          else none
      | _ => none
  | _ => none

/-- `Date.parse`: a finite millisecond timestamp, or NaN. -/
def dateParse (s : String) : JNum :=
  match isoToMillis s.toList with
  | some q => .num q
  | none => .nan

/-- `getExpiresIn(res)`: `Date.parse(Expires) - Date.parse(Date)` when both
headers are (truthily) present, else `null`. -/
def getExpiresIn (res : Response) : Option JNum :=
  let expires := res.get "Expires"
  let date := res.get "Date"
  if !strTruthy expires || !strTruthy date then none
  else some (JNum.sub (dateParse (expires.getD "")) (dateParse (date.getD "")))

/-- `getLastModifiedExpiration(res)`:
`(Date.parse(Date) - Date.parse(Last-Modified)) / 10` when both headers are
present, else `null`. -/
def getLastModifiedExpiration (res : Response) : Option JNum :=
  let lastModified := res.get "Last-Modified"
  let date := res.get "Date"
  if !strTruthy lastModified || !strTruthy date then none
  else some (JNum.div10 (JNum.sub (dateParse (date.getD "")) (dateParse (lastModified.getD ""))))

/-! ## The `Vary` header -/

/-- Drop the leading run of space characters (the regexp only eats literal
spaces, not all whitespace). -/
def dropLeadingSpaces (l : List Char) : List Char :=
  l.dropWhile (· = ' ')

/-- Drop the trailing run of space characters. -/
def dropTrailingSpaces (l : List Char) : List Char :=
  (l.reverse.dropWhile (· = ' ')).reverse

/-- Split a character list at every comma (the pieces between the commas,
kept in order; like JavaScript `split` an empty input gives one empty
piece). -/
def splitCommaChars : List Char → List (List Char)
  | [] => [[]]
  | c :: rest =>
      if c = ',' then [] :: splitCommaChars rest
      else
        match splitCommaChars rest with
        | [] => [[c]]
        | p :: ps => (c :: p) :: ps

/-- Finish `vary.split(/ *, */)` on the pieces after the first comma: spaces
adjacent to each comma are consumed by the delimiter, so every further piece is
trimmed on the left, and on the right except the last. -/
def varyTailPieces : List (List Char) → List String
  | [] => []
  | [y] => [String.mk (dropLeadingSpaces y)]
  | y :: ys => String.mk (dropLeadingSpaces (dropTrailingSpaces y)) :: varyTailPieces ys

/-- `s.split(/ *, */)`: each delimiter is one comma plus the spaces adjacent to
it, so the first piece keeps its leading spaces and the last keeps its trailing
spaces. -/
def splitCommaSpaces (s : String) : List String :=
  match splitCommaChars s.toList with
  | [] => []
  | [x] => [String.mk x]
  | x :: xs => String.mk (dropTrailingSpaces x) :: varyTailPieces xs

/-- `getVary(res)`: the names listed in the `Vary` header, split on commas. -/
def getVary (res : Response) : List String :=
  let vary := res.get "Vary"
  if strTruthy vary then splitCommaSpaces (vary.getD "") else []

/-! ## Cache policies -/

/-- `cacheables.standard()`: cache only `status == 200 && method == 'GET'`. -/
def cacheablesStandard (req : Request) (res : Response) : Bool :=
  res.status = 200 && req.method = "GET"

/-- `cacheables.always()`. -/
def cacheablesAlways (_ : Request) (_ : Response) : Bool :=
  true

/-- The freshness window `ttls.standard` selects: `maxAge`, else `expiresIn`,
else `lastModifiedExpiration`, else `0`. -/
def selectFreshness (res : Response) : JNum :=
  let cacheControl := getCacheControl res
  let expiresIn := getExpiresIn res
  let lastModified := getLastModifiedExpiration res
  match cacheControl.maxAge with
  | some a => .num a
  | none =>
      match expiresIn with
      | some e => e
      | none =>
          match lastModified with
          | some l => l
          | none => .num 0

/-- `ttls.standard(minTtl, maxTtl)`: `minTtl + Math.min(maxTtl, freshness)`. -/
def ttlsStandard (minTtl maxTtl : ℚ) (_ : Request) (res : Response) : JNum :=
  JNum.add (.num minTtl) (JNum.jmin (.num maxTtl) (selectFreshness res))

/-- `ttls.forever()`: `Infinity`. -/
def ttlsForever (_ : Request) (_ : Response) : JNum :=
  .inf

/-! ## Revalidation handler -/

/-- The time-based fragment of `handlers.standard`: `novalidate` after the
refinement block (`immutable || !noCache`, then the `max-age` / `expires` /
`last-modified` / `must-revalidate` chain). -/
def standardNovalidate (now : ℚ) (cache : CachedResponse) : Bool :=
  let cacheControl := getCacheControl cache.toResponse
  let expiresIn := getExpiresIn cache.toResponse
  let lastModified := getLastModifiedExpiration cache.toResponse
  if cacheControl.immutable || !cacheControl.noCache then
    match cacheControl.maxAge with
    | some a => JNum.lt (.num now) (JNum.add (.num cache.stored) (.num a)) && !cacheControl.mustRevalidate
    | none =>
        match expiresIn with
        | some e => JNum.lt (.num now) (JNum.add (.num cache.stored) e)
        | none =>
            match lastModified with
            | some l => JNum.lt (.num now) (JNum.add (.num cache.stored) l)
            | none => !cacheControl.mustRevalidate
  else
    false

/-- The vary check of `handlers.standard`: some recorded pair disqualifies the
entry (`undefined` stored value: the request has the header; concrete value:
the request's header differs). -/
def variesOn (req : Request) (varyHeaders : List (String × Option String)) : Bool :=
  varyHeaders.any fun p =>
    match p.2 with
    | none => (req.get p.1).isSome
    | some v => req.get p.1 ≠ some v

/-- Attach `If-None-Match` / `If-Modified-Since` from the cached response's
`ETag` / `Last-Modified` (when truthily present) before forwarding. -/
def addConditionalHeaders (req : Request) (cache : CachedResponse) : Request :=
  let req1 :=
    if strTruthy (cache.get "ETag") then
      req.set "If-None-Match" ((cache.get "ETag").getD "")
    else req
  if strTruthy (cache.get "Last-Modified") then
    req1.set "If-Modified-Since" ((cache.get "Last-Modified").getD "")
  else req1

/-- The revalidation tail of `handlers.standard`: forward the (conditional)
request; on a 304, return the cached response with the forwarded status and
statusText; otherwise return the forwarded response. -/
def revalidateStep (req : Request) (cache : CachedResponse)
    (next : Request → Except JsError Response) : Except JsError HandlerResult :=
  match next (addConditionalHeaders req cache) with
  | .error e => .error e
  | .ok res =>
      if res.status = 304 then
        .ok (.cached { cache with
          toResponse := { cache.toResponse with status := res.status, statusText := res.statusText } })
      else
        .ok (.plain res)

/-- The 304 merge (`cache.status = res.status; cache.statusText =
res.statusText; return cache`): the cached response with the forwarded
status and statusText. -/
def merge304 (cache : CachedResponse) (res : Response) : CachedResponse :=
  { cache with
    toResponse :=
      { cache.toResponse with status := res.status, statusText := res.statusText } }

/-- `handlers.standard()`: serve the cached response when `novalidate` holds
and no vary pair disqualifies it; otherwise revalidate. -/
def handlersStandard (now : ℚ) (req : Request) (cache : CachedResponse)
    (next : Request → Except JsError Response) : Except JsError HandlerResult :=
  if standardNovalidate now cache && !variesOn req cache.varyHeaders then
    .ok (.cached cache)
  else
    revalidateStep req cache next

/-! ## JSON (`JSON.stringify` / `JSON.parse`)

Platform builtins, modelled from the ECMAScript specification over the `Json`
value model above: `jsonRender`/`jsonStringify` is `QuoteJSONString` plus the
default (separator-free) serialization; `parseJsonValue`/`jsonParse` is the
JSON grammar, with non-integer numerals outside the modelled number domain. -/

/-- Lowercase hexadecimal digit (as `QuoteJSONString` emits in `\u` escapes). -/
def hexDigitChar (n : Nat) : Char :=
  if n < 10 then Char.ofNat (48 + n) else Char.ofNat (87 + n)

/-- One character of a JSON string literal, escaped as `JSON.stringify`
escapes it: `\"`, `\\`, the short control escapes, `\u00xx` for the remaining
control characters, and everything else verbatim. -/
def escapeJsonChar (c : Char) : List Char :=
  if c = '"' then ['\\', '"']
  else if c = '\\' then ['\\', '\\']
  else if c = Char.ofNat 8 then ['\\', 'b']
  else if c = Char.ofNat 12 then ['\\', 'f']
  else if c = '\n' then ['\\', 'n']
  else if c = '\r' then ['\\', 'r']
  else if c = '\t' then ['\\', 't']
  else if c.toNat < 32 then
    ['\\', 'u', '0', '0', hexDigitChar (c.toNat / 16), hexDigitChar (c.toNat % 16)]
  else [c]

/-- A JSON string literal: quote, escaped characters, quote. -/
def renderJsonString (s : String) : List Char :=
  '"' :: ((s.toList.map escapeJsonChar).flatten ++ ['"'])

/-- Decimal digits of a natural number, most significant first. -/
def natToDigits (n : Nat) : List Char :=
  if _ : n < 10 then [Char.ofNat (48 + n)]
  else natToDigits (n / 10) ++ [Char.ofNat (48 + n % 10)]
decreasing_by exact Nat.div_lt_self (by omega) (by omega)

/-- The decimal numeral of an integer, as JavaScript prints an integral
number. -/
def intToChars (i : Int) : List Char :=
  if i < 0 then '-' :: natToDigits i.natAbs else natToDigits i.natAbs

mutual

/-- `JSON.stringify` (default options), producing a character list. -/
def jsonRender : Json → List Char
  | .num n => intToChars n
  | .str s => renderJsonString s
  | .bool b => if b then ['t', 'r', 'u', 'e'] else ['f', 'a', 'l', 's', 'e']
  | .null => ['n', 'u', 'l', 'l']
  | .arr items => '[' :: (jsonRenderItems items ++ [']'])
  | .obj members => '{' :: (jsonRenderMembers members ++ ['}'])

/-- Comma-separated renderings of array elements. -/
def jsonRenderItems : List Json → List Char
  | [] => []
  | [x] => jsonRender x
  | x :: y :: xs => jsonRender x ++ ',' :: jsonRenderItems (y :: xs)

/-- Comma-separated `"key":value` renderings of object members. -/
def jsonRenderMembers : List (String × Json) → List Char
  | [] => []
  | [(k, v)] => renderJsonString k ++ ':' :: jsonRender v
  | (k, v) :: m :: ms => renderJsonString k ++ ':' :: jsonRender v ++ ',' :: jsonRenderMembers (m :: ms)

end

/-- `JSON.stringify` as a string-valued function. -/
def jsonStringify (v : Json) : String :=
  String.mk (jsonRender v)

/-- JSON whitespace (space, tab, line feed, carriage return), skipped between
tokens. -/
def skipJsonWs : List Char → List Char
  | c :: cs => if c = ' ' || c = '\t' || c = '\n' || c = '\r' then skipJsonWs cs else c :: cs
  | [] => []

/-- The character a short JSON escape denotes. -/
def unescapeJsonChar (c : Char) : Option Char :=
  if c = '"' then some '"'
  else if c = '\\' then some '\\'
  else if c = '/' then some '/'
  else if c = 'b' then some (Char.ofNat 8)
  else if c = 'f' then some (Char.ofNat 12)
  else if c = 'n' then some '\n'
  else if c = 'r' then some '\r'
  else if c = 't' then some '\t'
  else none

/-- Value of a hexadecimal digit character. -/
def hexCharVal (c : Char) : Option Nat :=
  if '0' ≤ c && c ≤ '9' then some (c.toNat - 48)
  else if 'a' ≤ c && c ≤ 'f' then some (c.toNat - 87)
  else if 'A' ≤ c && c ≤ 'F' then some (c.toNat - 55)
  else none

/-- The body of a JSON string literal after the opening quote: escapes are
decoded, raw control characters are rejected, the closing quote ends it. -/
def parseJsonStringBody (acc : List Char) : List Char → Option (String × List Char)
  | '"' :: rest => some (String.mk acc.reverse, rest)
  | '\\' :: 'u' :: a :: b :: c :: d :: rest => do
      let va ← hexCharVal a
      let vb ← hexCharVal b
      let vc ← hexCharVal c
      let vd ← hexCharVal d
      parseJsonStringBody (Char.ofNat (((va * 16 + vb) * 16 + vc) * 16 + vd) :: acc) rest
  | '\\' :: e :: rest => do
      let c ← unescapeJsonChar e
      parseJsonStringBody (c :: acc) rest
  | c :: rest =>
      if c.toNat < 32 then none
      else parseJsonStringBody (c :: acc) rest
  | [] => none

/-- A JSON number token restricted to the modelled integer domain: optional
minus sign and a digit run without a redundant leading zero; a fraction or
exponent suffix falls outside the model. -/
def parseJsonNumber (cs : List Char) : Option (Int × List Char) :=
  let neg := cs.head? = some '-'
  let cs1 := if neg then cs.tail else cs
  let ds := cs1.takeWhile isDigitChar
  let rest := cs1.drop ds.length
  if ds.isEmpty then none
  else if 1 < ds.length ∧ ds.head? = some '0' then none
  else if rest.head? = some '.' ∨ rest.head? = some 'e' ∨ rest.head? = some 'E' then none
  else some ((if neg then -1 else 1) * (digitsToNat ds : Int), rest)

mutual

/-- One JSON value (fuel-bounded recursive descent). -/
def parseJsonValue : Nat → List Char → Option (Json × List Char)
  | 0, _ => none
  | fuel + 1, cs =>
      match skipJsonWs cs with
      | 'n' :: 'u' :: 'l' :: 'l' :: rest => some (.null, rest)
      | 't' :: 'r' :: 'u' :: 'e' :: rest => some (.bool true, rest)
      | 'f' :: 'a' :: 'l' :: 's' :: 'e' :: rest => some (.bool false, rest)
      | '"' :: rest => do
          let (s, rest1) ← parseJsonStringBody [] rest
          some (.str s, rest1)
      | '[' :: rest =>
          (match skipJsonWs rest with
           | [] => none
           | c1 :: rest1 =>
               if c1 = ']' then some (.arr [], rest1)
               else do
                 let (items, rest2) ← parseJsonItems fuel (c1 :: rest1)
                 some (.arr items, rest2))
      | '{' :: rest =>
          (match skipJsonWs rest with
           | [] => none
           | c1 :: rest1 =>
               if c1 = '}' then some (.obj [], rest1)
               else do
                 let (members, rest2) ← parseJsonMembers fuel (c1 :: rest1)
                 some (.obj members, rest2))
      | other => do
          let (n, rest1) ← parseJsonNumber other
          some (.num n, rest1)

/-- One-or-more comma-separated array elements, up to the closing bracket. -/
def parseJsonItems : Nat → List Char → Option (List Json × List Char)
  | 0, _ => none
  | fuel + 1, cs => do
      let (v, rest) ← parseJsonValue fuel cs
      match skipJsonWs rest with
      | ',' :: rest1 => do
          let (vs, rest2) ← parseJsonItems fuel rest1
          some (v :: vs, rest2)
      | ']' :: rest1 => some ([v], rest1)
      | _ => none

/-- One-or-more comma-separated object members, up to the closing brace. -/
def parseJsonMembers : Nat → List Char → Option (List (String × Json) × List Char)
  | 0, _ => none
  | fuel + 1, cs =>
      match skipJsonWs cs with
      | '"' :: rest => do
          let (k, rest1) ← parseJsonStringBody [] rest
          match skipJsonWs rest1 with
          | ':' :: rest2 => do
              let (v, rest3) ← parseJsonValue fuel rest2
              match skipJsonWs rest3 with
              | ',' :: rest4 => do
                  let (ms, rest5) ← parseJsonMembers fuel rest4
                  some ((k, v) :: ms, rest5)
              | '}' :: rest4 => some ([(k, v)], rest4)
              | _ => none
          | _ => none
      | _ => none

end

/-- `JSON.parse`: a complete document with nothing but whitespace after the
value. -/
def jsonParse (s : String) : Option Json := do
  let cs := s.toList
  let (v, rest) ← parseJsonValue (cs.length + 1) cs
  if (skipJsonWs rest).isEmpty then some v else none

/-! ## Serializers -/

/-- A body serializer: `parse` rebuilds a body from the stored string (and may
throw); `stringify` returns the body to keep using, together with the
synchronous invocation of the completion callback, if the serializer makes
one (`.ok (some s)` stores `s`, `.ok none` skips the cache, `.error e`
reports a serialization error; `none` means the callback fires
asynchronously, as the stream serializer's does). -/
structure Serializer (T : Type) where
  name : String
  parse : String → Except JsError T
  stringify : T → T × Option (Except JsError (Option String))

/-- `serializers.standard()`: JSON body serializer — `stringify` encodes
synchronously and passes the result to the callback, returning the body
unchanged. -/
def serializersStandard : Serializer Json :=
  { name := "json"
    parse := fun s =>
      match jsonParse s with
      | some v => .ok v
      | none => .error { code := none }
    stringify := fun v => (v, some (.ok (some (jsonStringify v)))) }

/-! ## The stream serializer's buffering machine

`serializers.stream(maxBufferLength)` registers `data`/`error`/`end` listeners
on the source stream; the state is the running byte `length` and the list of
retained chunks (`strings`).  Bytes are modelled as naturals below 256. -/

/-- The buffering state of the stream serializer. -/
structure StreamState where
  length : Nat
  strings : List (List Nat)
deriving DecidableEq, Repr

/-- The `data` listener: once the cap has been exceeded further chunks are
discarded outright; otherwise the length grows and the chunk is retained only
when the new length is still within the cap. -/
def streamOnData (maxBufferLength : Nat) (st : StreamState) (chunk : List Nat) : StreamState :=
  if st.length > maxBufferLength then st
  else
    let length := st.length + chunk.length
    if length ≤ maxBufferLength then { length := length, strings := st.strings ++ [chunk] }
    else { length := length, strings := st.strings }

/-- The base64 alphabet. -/
def base64Char (n : Nat) : Char :=
  "ABCDEFGHIJKLMNOPQRSTUVWXYZabcdefghijklmnopqrstuvwxyz0123456789+/".toList.getD n 'A'

/-- Standard base64 of a byte list (what `Buffer.concat(strings)
.toString('base64')` produces), with `=` padding. -/
def base64Chunks : List Nat → List Char
  | a :: b :: c :: rest =>
      let n := (a % 256) * 65536 + (b % 256) * 256 + c % 256
      base64Char (n / 262144) :: base64Char (n / 4096 % 64) :: base64Char (n / 64 % 64) ::
        base64Char (n % 64) :: base64Chunks rest
  | [a, b] =>
      let n := (a % 256) * 65536 + (b % 256) * 256
      [base64Char (n / 262144), base64Char (n / 4096 % 64), base64Char (n / 64 % 64), '=']
  | [a] =>
      let n := (a % 256) * 65536
      [base64Char (n / 262144), base64Char (n / 4096 % 64), '=', '=']
  | [] => []

/-- Base64 of a byte list, as a string. -/
def base64Encode (bytes : List Nat) : String :=
  String.mk (base64Chunks bytes)

/-- The `end` listener's callback argument: `null` (skip the cache) when the
total length exceeded the cap, else the base64 of the retained chunks. -/
def streamOnEnd (maxBufferLength : Nat) (st : StreamState) : Option String :=
  if st.length > maxBufferLength then none
  else some (base64Encode st.strings.flatten)

/-- The completion-callback argument produced by the stream serializer for a
stream that emits `chunks` and then ends without error. -/
def streamStringifyEnd (maxBufferLength : Nat) (chunks : List (List Nat)) : Option String :=
  streamOnEnd maxBufferLength (chunks.foldl (streamOnData maxBufferLength) { length := 0, strings := [] })

/-! ## The orchestrator (`plugin`) -/

/-- The resolved plugin configuration (`options` after defaulting).
`catchCacheError`, `waitForCache` and `segment` only affect error sinking,
write awaiting and store namespacing, none of which changes the modelled
observables. -/
structure Config where
  cacheable : Request → Response → Bool
  ttl : Request → Response → JNum
  serializer : Serializer Json
  handler : Request → CachedResponse → (Request → Except JsError Response) →
    Except JsError HandlerResult
  staleFallback : Bool
  getId : Serializer Json → Request → String

/-- `getIds.standard()`: `serializer.name ~ method ~ url`. -/
def getIdsStandard (serializer : Serializer Json) (req : Request) : String :=
  serializer.name ++ "~" ++ req.method ++ "~" ++ req.url

/-- A write issued to the store (`cache.set(id, item, ttl)`). -/
structure CacheWrite where
  id : String
  item : CacheItem
  ttl : JNum

/-- The completion callback `setCache` inside `shouldCache`: an error goes to
the error sink (no write), `null` contents skip the cache, and otherwise a
`CacheItem` capturing the response's raw headers, url, status, statusText and
`Vary`-derived pairs is written with the configured TTL. -/
def setCache (cfg : Config) (id : String) (req : Request) (res : Response)
    (arg : Except JsError (Option String)) : List CacheWrite :=
  match arg with
  | .error _ => []
  | .ok none => []
  | .ok (some contents) =>
      [{ id := id
         item :=
           { body := contents
             rawHeaders := res.rawHeaders
             url := res.url
             status := res.status
             statusText := res.statusText
             varyHeaders := (getVary res).map fun key => (key, res.get key) }
         ttl := cfg.ttl req res }]

/-- `shouldCache`: return the response untouched when the cacheable predicate
declines; otherwise run the serializer's `stringify` (replacing the body with
what it returns) and collect the write its synchronous callback issues. -/
def shouldCache (cfg : Config) (id : String) (req : Request) (res : Response) :
    Response × List CacheWrite :=
  if !cfg.cacheable req res then (res, [])
  else
    let stringified := cfg.serializer.stringify res.body
    let res' := { res with body := stringified.1 }
    match stringified.2 with
    | some arg => (res', setCache cfg id req res arg)
    | none => (res', [])

/-- The `CachedResponse` instance `handle` rebuilds from a store hit. -/
def buildCachedResponse (body : Json) (result : StoredResult) : CachedResponse :=
  { ttl := result.ttl
    stored := result.stored
    varyHeaders := result.item.varyHeaders
    url := result.item.url
    body := body
    rawHeaders := result.item.rawHeaders
    status := result.item.status
    statusText := result.item.statusText }

/-- `plugin(...).handle(req, next)`: look the id up; on a miss, forward and
run `shouldCache`; on a hit, rebuild the cached response, run the handler
(with the `EUNAVAILABLE`/`staleFallback` catch and the 5xx stale fallback),
skip `shouldCache` for responses that are still cached instances, and
otherwise run `shouldCache`.  Returns the result together with the store
writes issued. -/
def handle (cfg : Config) (store : String → Option StoredResult) (req : Request)
    (next : Request → Except JsError Response) :
    Except JsError HandlerResult × List CacheWrite :=
  let id := cfg.getId cfg.serializer req
  match store id with
  | none =>
      match next req with
      | .error e => (.error e, [])
      | .ok res =>
          let sc := shouldCache cfg id req res
          (.ok (.plain sc.1), sc.2)
  | some result =>
      match cfg.serializer.parse result.item.body with
      | .error e => (.error e, [])
      | .ok body =>
          let response := buildCachedResponse body result
          match cfg.handler req response next with
          | .error e =>
              if e.code = some "EUNAVAILABLE" && cfg.staleFallback then
                (.ok (.cached response), [])
              else
                (.error e, [])
          | .ok res =>
              if cfg.staleFallback && (HandlerResult.response res).statusType = 5 then
                (.ok (.cached response), [])
              else
                match res with
                | .cached c => (.ok (.cached c), [])
                | .plain r =>
                    let sc := shouldCache cfg id req r
                    (.ok (.plain sc.1), sc.2)

/-- `plugin(...).forceUpdate(req, next)`: always forward, always run
`shouldCache`. -/
def forceUpdate (cfg : Config) (req : Request)
    (next : Request → Except JsError Response) :
    Except JsError HandlerResult × List CacheWrite :=
  match next req with
  | .error e => (.error e, [])
  | .ok res =>
      let sc := shouldCache cfg (cfg.getId cfg.serializer req) req res
      (.ok (.plain sc.1), sc.2)

/-- The configuration `plugin(options)` resolves when only `engine` is given:
standard cacheable, `ttls.standard(0, 1000*60*60*24*365)`, the JSON
serializer, `handlers.standard()` reading the clock at `now`, `staleFallback`
true, the standard id. -/
def defaultConfig (now : ℚ) : Config :=
  { cacheable := cacheablesStandard
    ttl := ttlsStandard 0 (1000 * 60 * 60 * 24 * 365)
    serializer := serializersStandard
    handler := handlersStandard now
    staleFallback := true
    getId := getIdsStandard }

/-! ## Auxiliary predicates and concrete instances -/

/-- A remainder that cannot extend a JSON number token: empty, or headed by a
character that is no digit, `.`, `e` or `E`.  JSON's own delimiters (`,`, `]`,
the closing brace, end of input) all qualify. -/
def numDelimOk : List Char → Bool
  | [] => true
  | c :: _ => !(isDigitChar c || c = '.' || c = 'e' || c = 'E')

/-- A plain GET request with no headers. -/
def reqGet : Request :=
  { method := "GET"
    url := "http://example.com/a"
    headers := [] }

/-- A GET request carrying `Accept-Encoding: gzip`. -/
def reqGzip : Request :=
  { method := "GET"
    url := "http://example.com/a"
    headers := [("Accept-Encoding", "gzip")] }

/-- A GET request carrying an `X-Custom` header. -/
def reqXCustom : Request :=
  { method := "GET"
    url := "http://example.com/a"
    headers := [("X-Custom", "1")] }

/-- A cached response with `Cache-Control: max-age=100`, stored at time 0, no
vary constraints. -/
def cacheMaxAge : CachedResponse :=
  { url := "http://example.com/a"
    body := Json.null
    rawHeaders := [("Cache-Control", "max-age=100")]
    status := 200
    statusText := "OK"
    ttl := JNum.num 0
    stored := 0
    varyHeaders := [] }

/-- A cached response whose `Cache-Control: no-cache` forces revalidation. -/
def cacheNoCache : CachedResponse :=
  { url := "http://example.com/a"
    body := Json.null
    rawHeaders := [("Cache-Control", "no-cache, max-age=100"), ("ETag", "123abc")]
    status := 200
    statusText := "OK"
    ttl := JNum.num 0
    stored := 0
    varyHeaders := [] }

/-- A time-fresh cached response that varies on a concrete
`Accept-Encoding: gzip`. -/
def cacheVary : CachedResponse :=
  { url := "http://example.com/a"
    body := Json.null
    rawHeaders := [("Cache-Control", "max-age=100")]
    status := 200
    statusText := "OK"
    ttl := JNum.num 0
    stored := 0
    varyHeaders := [("Accept-Encoding", some "gzip")] }

/-- A time-fresh cached response with a vary pair whose stored value is
absent. -/
def cacheVaryNull : CachedResponse :=
  { url := "http://example.com/a"
    body := Json.null
    rawHeaders := [("Cache-Control", "max-age=100")]
    status := 200
    statusText := "OK"
    ttl := JNum.num 0
    stored := 0
    varyHeaders := [("X-Custom", none)] }

/-- A forwarded `304 Not Modified` response. -/
def res304 : Response :=
  { url := "http://example.com/a"
    body := Json.null
    rawHeaders := []
    status := 304
    statusText := "Not Modified" }

/-- A forwarded `503` response. -/
def res503 : Response :=
  { url := "http://example.com/a"
    body := Json.null
    rawHeaders := []
    status := 503
    statusText := "Service Unavailable" }

/-- A forwarded `404` response. -/
def res404 : Response :=
  { url := "http://example.com/a"
    body := Json.null
    rawHeaders := []
    status := 404
    statusText := "Not Found" }

/-- A stored cache entry whose response carried
`Cache-Control: no-cache, max-age=100`. -/
def storedNoCache : StoredResult :=
  { ttl := JNum.num 0
    stored := 0
    item :=
      { body := "null"
        rawHeaders := [("Cache-Control", "no-cache, max-age=100")]
        url := "http://example.com/a"
        status := 200
        statusText := "OK"
        varyHeaders := [] } }

/-- A store in which every id hits `storedNoCache`. -/
def storeHit : String → Option StoredResult :=
  fun _ => some storedNoCache

/-- A response whose `Expires` precedes its `Date` (an already-expired
response). -/
def resExpired : Response :=
  { url := "http://example.com/a"
    body := Json.null
    rawHeaders := [("Expires", "1970-01-01T00:00:00.000Z"), ("Date", "1970-01-02T00:00:00.000Z")]
    status := 200
    statusText := "OK" }

/-- A response with `Cache-Control: max-age=300`. -/
def resMaxAge300 : Response :=
  { url := "http://example.com/a"
    body := Json.null
    rawHeaders := [("Cache-Control", "public, max-age=300")]
    status := 200
    statusText := "OK" }

/-- A cacheable response declaring `Vary: Accept-Encoding, Accept` and
carrying only `Accept-Encoding` itself. -/
def resVary : Response :=
  { url := "http://example.com/a"
    body := Json.null
    rawHeaders := [("Vary", "Accept-Encoding, Accept"), ("Accept-Encoding", "gzip")]
    status := 200
    statusText := "OK" }

/-- The store write `shouldCache` issues for `resVary` under the default
configuration. -/
def writeVary : CacheWrite :=
  { id := "i"
    item :=
      { body := jsonStringify resVary.body
        rawHeaders := resVary.rawHeaders
        url := resVary.url
        status := resVary.status
        statusText := resVary.statusText
        varyHeaders := (getVary resVary).map fun key => (key, resVary.get key) }
    ttl := ttlsStandard 0 (1000 * 60 * 60 * 24 * 365) reqGet resVary }

/-- An eleven-byte chunk (`"hello world"`). -/
def chunk11 : List Nat :=
  [104, 101, 108, 108, 111, 32, 119, 111, 114, 108, 100]

/-! ## Theorems

First, shared facts about the revalidation handler. -/

/-- A fresh, vary-qualified entry is served without consulting `next`. -/
theorem handlersStandard_serves (now : ℚ) (req : Request) (cache : CachedResponse)
    (next : Request → Except JsError Response)
    (h1 : standardNovalidate now cache = true)
    (h2 : variesOn req cache.varyHeaders = false) :
    handlersStandard now req cache next = .ok (.cached cache) := by
  simp [handlersStandard, h1, h2]

/-- When freshness or the vary check fails, the handler runs its revalidation
tail. -/
theorem handlersStandard_revalidates (now : ℚ) (req : Request) (cache : CachedResponse)
    (next : Request → Except JsError Response)
    (h : (standardNovalidate now cache && !variesOn req cache.varyHeaders) = false) :
    handlersStandard now req cache next = revalidateStep req cache next := by
  simp only [handlersStandard, h, Bool.false_eq_true, if_false]

/-- The revalidation tail propagates a rejection of the forwarded call. -/
theorem revalidateStep_error (req : Request) (cache : CachedResponse) (e : JsError) :
    revalidateStep req cache (fun _ => .error e) = .error e := by
  simp [revalidateStep]

/-- With a `max-age` response (no `no-cache`, no `must-revalidate`), the
time-based freshness test is exactly `now < stored + maxAge`. -/
theorem standardNovalidate_maxAge (now : ℚ) (cache : CachedResponse) (a : ℚ) (imm : Bool)
    (noc : Bool)
    (hcc : getCacheControl cache.toResponse =
      { maxAge := some a, noCache := noc, immutable := imm, mustRevalidate := false })
    (hnoc : (imm || !noc) = true) :
    standardNovalidate now cache = decide (now < cache.stored + a) := by
  simp only [standardNovalidate, hcc, hnoc, JNum.add, JNum.lt, if_true, Bool.not_false,
    Bool.and_true]

/-- **C1**: for a stored entry whose response carries `Cache-Control:
max-age=N` (no `no-cache`, no `must-revalidate`) and that is not
vary-disqualified, the standard handler returns the cached response with no
forwarded call exactly when `now < stored + N*1000` ms; a lookup at
`stored + (N-1)s` is a fresh hit, and at `stored + (N+1)s` the request is
forwarded (revalidation). -/
theorem claim1_maxAge_window (now : ℚ) (req : Request) (cache : CachedResponse)
    (N : ℕ) (imm : Bool)
    (hcc : getCacheControl cache.toResponse =
      { maxAge := some ((N : ℚ) * 1000), noCache := false, immutable := imm,
        mustRevalidate := false })
    (hvary : variesOn req cache.varyHeaders = false) :
    ((∀ next, handlersStandard now req cache next = .ok (.cached cache)) ↔
        now < cache.stored + (N : ℚ) * 1000)
    ∧ (∀ next, handlersStandard (cache.stored + ((N : ℚ) - 1) * 1000) req cache next
        = .ok (.cached cache))
    ∧ (¬ now < cache.stored + (N : ℚ) * 1000 →
        (∀ next, handlersStandard now req cache next = revalidateStep req cache next)
        ∧ ∀ e, handlersStandard now req cache (fun _ => .error e) = .error e)
    ∧ (∀ e, handlersStandard (cache.stored + ((N : ℚ) + 1) * 1000) req cache
        (fun _ => .error e) = .error e) := by
  have hnv : ∀ t : ℚ, standardNovalidate t cache
      = decide (t < cache.stored + (N : ℚ) * 1000) := fun t =>
    standardNovalidate_maxAge t cache _ imm false hcc (by simp)
  have hserve : ∀ t : ℚ, t < cache.stored + (N : ℚ) * 1000 →
      ∀ next, handlersStandard t req cache next = .ok (.cached cache) := by
    intro t ht next
    exact handlersStandard_serves t req cache next
      (by rw [hnv t]; exact decide_eq_true ht) hvary
  have hrev : ∀ t : ℚ, ¬ t < cache.stored + (N : ℚ) * 1000 →
      ∀ next, handlersStandard t req cache next = revalidateStep req cache next := by
    intro t ht next
    refine handlersStandard_revalidates t req cache next ?_
    rw [hnv t, decide_eq_false ht, Bool.false_and]
  refine ⟨⟨fun hall => ?_, fun h next => hserve now h next⟩,
    fun next => hserve _ (by nlinarith [sq_nonneg ((1 : ℚ))]) next,
    fun h => ⟨hrev now h, fun e => by rw [hrev now h, revalidateStep_error]⟩,
    fun e => ?_⟩
  · by_contra hlt
    have h1 := hall (fun _ => .error { code := none })
    rw [hrev now hlt, revalidateStep_error] at h1
    exact Except.noConfusion h1
  · have hge : ¬ cache.stored + ((N : ℚ) + 1) * 1000 < cache.stored + (N : ℚ) * 1000 := by
      nlinarith
    rw [hrev _ hge, revalidateStep_error]

/-- **C1 witness**: the concrete `max-age=100` entry stored at 0, looked up at
50 s, satisfies the hypotheses and the freshness equivalence. -/
theorem claim1_maxAge_window_witness :
    (getCacheControl cacheMaxAge.toResponse =
      { maxAge := some (((100 : ℕ) : ℚ) * 1000), noCache := false, immutable := false,
        mustRevalidate := false })
    ∧ variesOn reqGet cacheMaxAge.varyHeaders = false
    ∧ ((∀ next, handlersStandard 50000 reqGet cacheMaxAge next = .ok (.cached cacheMaxAge)) ↔
        (50000 : ℚ) < cacheMaxAge.stored + ((100 : ℕ) : ℚ) * 1000) :=
  ⟨by with_unfolding_all rfl, by rfl,
    (claim1_maxAge_window 50000 reqGet cacheMaxAge 100 false (by with_unfolding_all rfl)
      (by rfl)).1⟩

/-- **C2**: whenever the standard handler proceeds to revalidation and the
forwarded response has status 304, the returned response is the stored entry
with the forwarded status and statusText — its body, raw headers and url are
the cached ones. -/
theorem claim2_merge304 (now : ℚ) (req : Request) (cache : CachedResponse) (res : Response)
    (next : Request → Except JsError Response)
    (hreval : (standardNovalidate now cache && !variesOn req cache.varyHeaders) = false)
    (hnext : next (addConditionalHeaders req cache) = .ok res)
    (h304 : res.status = 304) :
    handlersStandard now req cache next = .ok (.cached (merge304 cache res))
    ∧ ∀ c', handlersStandard now req cache next = .ok (.cached c') →
        c'.body = cache.body ∧ c'.rawHeaders = cache.rawHeaders ∧ c'.url = cache.url
          ∧ c'.status = res.status ∧ c'.statusText = res.statusText := by
  have h1 : handlersStandard now req cache next = .ok (.cached (merge304 cache res)) := by
    rw [handlersStandard_revalidates now req cache next hreval]
    simp [revalidateStep, hnext, h304, merge304]
  refine ⟨h1, fun c' hc' => ?_⟩
  rw [h1] at hc'
  have hc'' := HandlerResult.cached.inj (Except.ok.inj hc')
  subst hc''
  exact ⟨rfl, rfl, rfl, rfl, rfl⟩

/-- **C2 witness**: a `no-cache` entry revalidated against a mock returning a
plain 304 yields the merged cached response. -/
theorem claim2_merge304_witness :
    ((standardNovalidate 0 cacheNoCache && !variesOn reqGet cacheNoCache.varyHeaders) = false)
    ∧ res304.status = 304
    ∧ handlersStandard 0 reqGet cacheNoCache (fun _ => .ok res304) =
        .ok (.cached (merge304 cacheNoCache res304)) :=
  ⟨by with_unfolding_all rfl, rfl,
    (claim2_merge304 0 reqGet cacheNoCache res304 (fun _ => .ok res304)
      (by with_unfolding_all rfl) rfl rfl).1⟩

/-- **C4**: a time-fresh entry is served from cache exactly when no recorded
vary pair disqualifies it — a pair with an absent stored value requires the
request to lack the header, a concrete stored value requires the request's
header to equal it — and any disqualification forces the revalidation tail
(a conditional forwarded request) despite time freshness. -/
theorem claim4_varyGate (now : ℚ) (req : Request) (cache : CachedResponse)
    (hfresh : standardNovalidate now cache = true) :
    ((∀ next, handlersStandard now req cache next = .ok (.cached cache)) ↔
      ∀ p ∈ cache.varyHeaders,
        (p.2 = none → (req.get p.1).isSome = false)
        ∧ ∀ v, p.2 = some v → req.get p.1 = some v)
    ∧ (variesOn req cache.varyHeaders = true →
        (∀ next, handlersStandard now req cache next = revalidateStep req cache next)
        ∧ ∀ e, handlersStandard now req cache (fun _ => .error e) = .error e) := by
  have hchar : variesOn req cache.varyHeaders = false ↔
      ∀ p ∈ cache.varyHeaders,
        (p.2 = none → (req.get p.1).isSome = false)
        ∧ ∀ v, p.2 = some v → req.get p.1 = some v := by
    unfold variesOn
    rw [List.any_eq_false]
    constructor
    · intro h p hp
      have hb := h p hp
      refine ⟨fun h2 => ?_, fun v h2 => ?_⟩
      · rw [h2] at hb
        simpa using hb
      · rw [h2] at hb
        simpa using hb
    · intro h p hp
      have hb := h p hp
      match h2 : p.2 with
      | none => simpa using hb.1 h2
      | some v => simpa using hb.2 v h2
  have hforce : variesOn req cache.varyHeaders = true →
      (∀ next, handlersStandard now req cache next = revalidateStep req cache next)
      ∧ ∀ e, handlersStandard now req cache (fun _ => .error e) = .error e := by
    intro hv
    have h1 : ∀ next, handlersStandard now req cache next = revalidateStep req cache next :=
      fun next => handlersStandard_revalidates now req cache next (by simp [hv])
    exact ⟨h1, fun e => by rw [h1, revalidateStep_error]⟩
  refine ⟨⟨fun hall => ?_, fun h next => ?_⟩, hforce⟩
  · rw [← hchar]
    by_contra hv
    have hv' : variesOn req cache.varyHeaders = true := by
      revert hv
      cases variesOn req cache.varyHeaders <;> simp
    have h1 := hall (fun _ => .error { code := none })
    rw [(hforce hv').2 { code := none }] at h1
    exact Except.noConfusion h1
  · exact handlersStandard_serves now req cache next hfresh (hchar.mpr h)

/-- **C4 witness**: the fresh entry varying on `Accept-Encoding: gzip`,
probed with a matching request. -/
theorem claim4_varyGate_witness :
    standardNovalidate 1000 cacheVary = true
    ∧ ((∀ next, handlersStandard 1000 reqGzip cacheVary next = .ok (.cached cacheVary)) ↔
        ∀ p ∈ cacheVary.varyHeaders,
          (p.2 = none → (reqGzip.get p.1).isSome = false)
          ∧ ∀ v, p.2 = some v → reqGzip.get p.1 = some v) :=
  ⟨by with_unfolding_all rfl,
    (claim4_varyGate 1000 reqGzip cacheVary (by with_unfolding_all rfl)).1⟩

/-- **C5 counterexample**: the claim says a stored pair with an absent value
means the header must be *present* to serve from cache.  On the code the
opposite holds: the fresh entry with `varyHeaders = [("X-Custom", none)]` is
*revalidated* when the request carries `X-Custom` (the erroring `next` is
reached) and *served* when the request lacks it. -/
theorem claim5_counterexample :
    standardNovalidate 1000 cacheVaryNull = true
    ∧ (reqXCustom.get "X-Custom").isSome = true
    ∧ handlersStandard 1000 reqXCustom cacheVaryNull (fun _ => .error { code := none })
        = .error { code := none }
    ∧ (reqGet.get "X-Custom").isSome = false
    ∧ handlersStandard 1000 reqGet cacheVaryNull (fun _ => .error { code := none })
        = .ok (.cached cacheVaryNull) := by
  refine ⟨by with_unfolding_all rfl, by rfl, by with_unfolding_all rfl, by rfl,
    by with_unfolding_all rfl⟩

/-- **C5 (amended)**: for a time-fresh entry whose `varyHeaders` contains a
pair with an absent value for key `k`, the entry is served from cache only
when header `k` is *absent* from the current request (an absent stored value
means the key must be absent, its value irrelevant). -/
theorem claim5_nullVary_requires_absent (now : ℚ) (req : Request) (cache : CachedResponse)
    (k : String)
    (hfresh : standardNovalidate now cache = true)
    (hk : (k, none) ∈ cache.varyHeaders)
    (hserved : ∀ next, handlersStandard now req cache next = .ok (.cached cache)) :
    req.get k = none := by
  by_contra hne
  have hsome : (req.get k).isSome = true := Option.isSome_iff_ne_none.mpr hne
  have hvar : variesOn req cache.varyHeaders = true := by
    unfold variesOn
    rw [List.any_eq_true]
    exact ⟨(k, none), hk, by simpa using hsome⟩
  have h1 := hserved (fun _ => .error { code := none })
  rw [handlersStandard_revalidates now req cache _ (by simp [hvar]),
    revalidateStep_error] at h1
  exact Except.noConfusion h1

/-- **C5 witness**: the fresh null-vary entry is served to the header-less
request, and the amended theorem concludes the header is absent. -/
theorem claim5_nullVary_requires_absent_witness :
    standardNovalidate 1000 cacheVaryNull = true
    ∧ ("X-Custom", none) ∈ cacheVaryNull.varyHeaders
    ∧ reqGet.get "X-Custom" = none :=
  ⟨by with_unfolding_all rfl, by simp [cacheVaryNull],
    claim5_nullVary_requires_absent 1000 reqGet cacheVaryNull "X-Custom"
      (by with_unfolding_all rfl) (by simp [cacheVaryNull])
      (fun next => by with_unfolding_all rfl)⟩

/-- A 5xx response is never a 304. -/
theorem statusType5_ne_304 (res : Response) (h : res.statusType = 5) : res.status ≠ 304 := by
  intro h304
  rw [Response.statusType, h304] at h
  exact absurd h (by decide)

/-- **C3**: with a stored entry, `staleFallback` on (the default) and the
standard handler proceeding to revalidation, a forwarded rejection carrying
code `EUNAVAILABLE` — or a forwarded response of status class 5xx — makes
`handle` resolve to the reconstructed cached response, with no store
write. -/
theorem claim3_staleFallback (now : ℚ) (cfg : Config) (store : String → Option StoredResult)
    (req : Request) (result : StoredResult) (body : Json)
    (hsf : cfg.staleFallback = true)
    (hhandler : cfg.handler = handlersStandard now)
    (hstore : store (cfg.getId cfg.serializer req) = some result)
    (hparse : cfg.serializer.parse result.item.body = .ok body)
    (hreval : (standardNovalidate now (buildCachedResponse body result)
        && !variesOn req (buildCachedResponse body result).varyHeaders) = false) :
    (∀ e : JsError, e.code = some "EUNAVAILABLE" →
        handle cfg store req (fun _ => .error e) =
          (.ok (.cached (buildCachedResponse body result)), []))
    ∧ (∀ res5 : Response, res5.statusType = 5 →
        handle cfg store req (fun _ => .ok res5) =
          (.ok (.cached (buildCachedResponse body result)), [])) := by
  constructor
  · intro e he
    have hh : cfg.handler req (buildCachedResponse body result) (fun _ => .error e)
        = .error e := by
      rw [hhandler, handlersStandard_revalidates _ _ _ _ hreval, revalidateStep_error]
    simp only [handle, hstore, hparse, hh, he, hsf, decide_True, Bool.and_self, if_true]
  · intro res5 h5
    have hh : cfg.handler req (buildCachedResponse body result) (fun _ => .ok res5)
        = .ok (.plain res5) := by
      rw [hhandler, handlersStandard_revalidates _ _ _ _ hreval]
      simp [revalidateStep, statusType5_ne_304 res5 h5]
    simp only [handle, hstore, hparse, hh, hsf, HandlerResult.response, h5, decide_True,
      Bool.and_self, if_true, true_and]

/-- **C3 witness**: the spec's scenario — entry stored with `Cache-Control:
no-cache, max-age=100`, default configuration, forwarded call failing with an
unavailable-class error (and, for the 5xx clause, a forwarded 503). -/
theorem claim3_staleFallback_witness :
    handle (defaultConfig 0) storeHit reqGet
        (fun _ => .error { code := some "EUNAVAILABLE" }) =
      (.ok (.cached (buildCachedResponse Json.null storedNoCache)), [])
    ∧ handle (defaultConfig 0) storeHit reqGet (fun _ => .ok res503) =
      (.ok (.cached (buildCachedResponse Json.null storedNoCache)), []) :=
  ⟨(claim3_staleFallback 0 (defaultConfig 0) storeHit reqGet storedNoCache Json.null rfl rfl
      rfl (by with_unfolding_all rfl) (by with_unfolding_all rfl)).1
      { code := some "EUNAVAILABLE" } rfl,
    (claim3_staleFallback 0 (defaultConfig 0) storeHit reqGet storedNoCache Json.null rfl rfl
      rfl (by with_unfolding_all rfl) (by with_unfolding_all rfl)).2 res503 (by decide)⟩

/-- A parsed `max-age` freshness value is never negative (it is a parsed
digit run times 1000). -/
theorem getCacheControl_maxAge_nonneg (res : Response) (a : ℚ)
    (h : (getCacheControl res).maxAge = some a) : 0 ≤ a := by
  rw [getCacheControl] at h
  by_cases hc : strTruthy (res.get "Cache-Control") = true
  · simp only [hc, if_true] at h
    match hex : execMaxAge none (List.map Char.toLower ((res.get "Cache-Control").getD "").toList) with
    | none => rw [hex] at h; simp at h
    | some n =>
        rw [hex] at h
        simp at h
        rw [← h]
        positivity
  · simp only [hc, if_false, Bool.false_eq_true] at h
    simp at h

/-- **C6 counterexample**: the default-bounded standard TTL policy applied to
an already-expired response (`Expires` one day before `Date`) computes the
negative TTL `-86400000`, refuting non-negativity as claimed. -/
theorem claim6_counterexample :
    ttlsStandard 0 (1000 * 60 * 60 * 24 * 365) reqGet resExpired = .num (-86400000)
    ∧ JNum.nonneg (ttlsStandard 0 (1000 * 60 * 60 * 24 * 365) reqGet resExpired) = false :=
  ⟨by with_unfolding_all rfl, by with_unfolding_all rfl⟩

/-- **C6 (amended)**: the standard TTL with non-negative bounds is
non-negative whenever the selected freshness window is non-negative — which
holds in particular whenever `max-age` supplies the window — and the forever
policy returns `Infinity`, a legal non-negative value meaning never expire by
TTL.  (Unamended, the claim fails: a negative `Expires - Date` or
`Last-Modified` window makes the computed TTL negative, see the
counterexample.) -/
theorem claim6_ttl_nonneg (minTtl maxTtl : ℚ) (req : Request) (res : Response)
    (hmin : 0 ≤ minTtl) (hmax : 0 ≤ maxTtl)
    (hfresh : JNum.nonneg (selectFreshness res) = true) :
    JNum.nonneg (ttlsStandard minTtl maxTtl req res) = true
    ∧ (∀ a, (getCacheControl res).maxAge = some a →
        JNum.nonneg (selectFreshness res) = true)
    ∧ ttlsForever req res = JNum.inf
    ∧ JNum.nonneg (ttlsForever req res) = true := by
  refine ⟨?_, fun a ha => ?_, rfl, rfl⟩
  · unfold ttlsStandard
    match hsel : selectFreshness res with
    | .num a =>
        rw [hsel] at hfresh
        have ha : 0 ≤ a := of_decide_eq_true hfresh
        simp only [JNum.jmin, JNum.add, JNum.nonneg]
        have : 0 ≤ minTtl + min maxTtl a := by
          have := le_min hmax ha
          linarith
        exact decide_eq_true this
    | .inf =>
        simp only [JNum.jmin, JNum.add, JNum.nonneg]
        exact decide_eq_true (by linarith)
    | .nan => rw [hsel] at hfresh; exact absurd hfresh (by decide)
  · have hnn := getCacheControl_maxAge_nonneg res a ha
    simp only [selectFreshness, ha, JNum.nonneg]
    exact decide_eq_true hnn

/-- **C6 witness**: the `max-age=300` response under the default bounds. -/
theorem claim6_ttl_nonneg_witness :
    JNum.nonneg (selectFreshness resMaxAge300) = true
    ∧ JNum.nonneg (ttlsStandard 0 (1000 * 60 * 60 * 24 * 365) reqGet resMaxAge300) = true :=
  ⟨by with_unfolding_all rfl,
    (claim6_ttl_nonneg 0 (1000 * 60 * 60 * 24 * 365) reqGet resMaxAge300 (by norm_num)
      (by norm_num) (by with_unfolding_all rfl)).1⟩

/-- The standard cacheable predicate declines any pair whose status is not
200 or whose method is not GET. -/
theorem cacheablesStandard_declines (req : Request) (res : Response)
    (h : res.status ≠ 200 ∨ req.method ≠ "GET") :
    cacheablesStandard req res = false := by
  rcases h with h | h <;> simp [cacheablesStandard, h]

/-- When the cacheable predicate declines, `shouldCache` is the identity with
no writes. -/
theorem shouldCache_declines (cfg : Config) (id : String) (req : Request) (res : Response)
    (h : cfg.cacheable req res = false) :
    shouldCache cfg id req res = (res, []) := by
  simp [shouldCache, h]

/-- **C9 (amended)**: under the standard cacheable policy, a response with
status ≠ 200 or method ≠ GET causes no store write in `forceUpdate` or
`handle`, and is returned unchanged — except that on a cache hit with
`staleFallback` enabled, a handler result of status class 5xx is replaced by
the stale cached response (still with no store write). -/
theorem claim9_noWrite_uncacheable (cfg : Config) (store : String → Option StoredResult)
    (req : Request) (next : Request → Except JsError Response)
    (hcfg : cfg.cacheable = cacheablesStandard) :
    (∀ res, next req = .ok res → (res.status ≠ 200 ∨ req.method ≠ "GET") →
        forceUpdate cfg req next = (.ok (.plain res), []))
    ∧ (store (cfg.getId cfg.serializer req) = none →
        ∀ res, next req = .ok res → (res.status ≠ 200 ∨ req.method ≠ "GET") →
          handle cfg store req next = (.ok (.plain res), []))
    ∧ (∀ result body r,
        store (cfg.getId cfg.serializer req) = some result →
        cfg.serializer.parse result.item.body = .ok body →
        cfg.handler req (buildCachedResponse body result) next = .ok r →
        ((HandlerResult.response r).status ≠ 200 ∨ req.method ≠ "GET") →
        (handle cfg store req next).2 = []
        ∧ (¬(cfg.staleFallback = true ∧ (HandlerResult.response r).statusType = 5) →
            handle cfg store req next = (.ok r, []))) := by
  have hdecline : ∀ res : Response, (res.status ≠ 200 ∨ req.method ≠ "GET") →
      cfg.cacheable req res = false := by
    intro res h
    rw [hcfg]
    exact cacheablesStandard_declines req res h
  refine ⟨fun res hres hun => ?_, fun hmiss res hres hun => ?_,
    fun result body r hhit hparse hh hun => ?_⟩
  · simp [forceUpdate, hres, shouldCache_declines cfg _ req res (hdecline res hun)]
  · simp [handle, hmiss, hres, shouldCache_declines cfg _ req res (hdecline res hun)]
  · have hfb : (cfg.staleFallback && decide ((HandlerResult.response r).statusType = 5)) = false
        → handle cfg store req next = (.ok r, []) := by
      intro hfb
      simp only [handle, hhit, hparse, hh, hfb, Bool.false_eq_true, if_false]
      match r with
      | .cached c => rfl
      | .plain rr =>
          simp [shouldCache_declines cfg _ req rr (hdecline rr hun)]
    constructor
    · by_cases hfb' :
          (cfg.staleFallback && decide ((HandlerResult.response r).statusType = 5)) = true
      · simp [handle, hhit, hparse, hh, hfb']
      · have hfb'' :
            (cfg.staleFallback && decide ((HandlerResult.response r).statusType = 5)) = false := by
          revert hfb'
          cases cfg.staleFallback && decide ((HandlerResult.response r).statusType = 5) <;> simp
        rw [hfb hfb'']
    · intro hnot
      refine hfb ?_
      by_cases hsf : cfg.staleFallback = true
      · have h5 : (HandlerResult.response r).statusType ≠ 5 := fun h5 => hnot ⟨hsf, h5⟩
        simp [hsf, h5]
      · have hsf' : cfg.staleFallback = false := by
          revert hsf
          cases cfg.staleFallback <;> simp
        simp [hsf']

/-- **C9 counterexample**: on a cache hit with the default configuration, a
forwarded 503 (status ≠ 200) produces no store write but is *not* returned
unchanged — the stale cached response is returned in its place. -/
theorem claim9_counterexample :
    res503.status = 503
    ∧ handle (defaultConfig 0) storeHit reqGet (fun _ => .ok res503) =
        (.ok (.cached (buildCachedResponse Json.null storedNoCache)), [])
    ∧ (Except.ok (HandlerResult.cached (buildCachedResponse Json.null storedNoCache)) :
        Except JsError HandlerResult) ≠ .ok (.plain res503) :=
  ⟨rfl, by with_unfolding_all rfl,
    fun h => HandlerResult.noConfusion (Except.ok.inj h)⟩

/-- **C9 witness**: a 404 through `forceUpdate` under the default
configuration is returned unchanged with no store write. -/
theorem claim9_noWrite_uncacheable_witness :
    (res404.status ≠ 200 ∨ reqGet.method ≠ "GET")
    ∧ forceUpdate (defaultConfig 0) reqGet (fun _ => .ok res404) = (.ok (.plain res404), []) :=
  ⟨Or.inl (by decide),
    (claim9_noWrite_uncacheable (defaultConfig 0) storeHit reqGet (fun _ => .ok res404)
      rfl).1 res404 rfl (Or.inl (by decide))⟩

/-- **C10**: the `varyHeaders` recorded in a stored `CacheItem` are computed
solely from the response: each name in the comma-split `Vary` header is paired
with the response's own value for it (absent when the response lacks it), and
the pairs are invariant under the request. -/
theorem claim10_varyCapture (cfg : Config) (id : String) (req : Request) (res : Response) :
    (∀ w ∈ (shouldCache cfg id req res).2,
        w.item.varyHeaders = (getVary res).map fun key => (key, res.get key))
    ∧ (∀ req' w w', w ∈ (shouldCache cfg id req res).2 →
        w' ∈ (shouldCache cfg id req' res).2 →
        w.item.varyHeaders = w'.item.varyHeaders) := by
  have hmain : ∀ (cfg : Config) (id : String) (req : Request),
      ∀ w ∈ (shouldCache cfg id req res).2,
        w.item.varyHeaders = (getVary res).map fun key => (key, res.get key) := by
    intro cfg id req w hw
    unfold shouldCache at hw
    by_cases hc : cfg.cacheable req res = true
    · simp only [hc, Bool.not_true, Bool.false_eq_true, if_false] at hw
      match hs : (cfg.serializer.stringify res.body).2 with
      | none => rw [hs] at hw; simp at hw
      | some arg =>
          rw [hs] at hw
          simp only at hw
          unfold setCache at hw
          match arg with
          | .error _ => simp at hw
          | .ok none => simp at hw
          | .ok (some contents) =>
              simp only [List.mem_singleton] at hw
              rw [hw]
    · have hc' : cfg.cacheable req res = false := by
        revert hc
        cases cfg.cacheable req res <;> simp
      simp [hc', shouldCache] at hw
  exact ⟨hmain cfg id req, fun req' w w' hw hw' =>
    (hmain cfg id req w hw).trans (hmain cfg id req' w' hw').symm⟩

/-- **C10 witness**: the default configuration storing `resVary` records
`[("Accept-Encoding", some "gzip"), ("Accept", none)]`, exactly the map over
the split `Vary` header. -/
theorem claim10_varyCapture_witness :
    writeVary ∈ (shouldCache (defaultConfig 0) "i" reqGet resVary).2
    ∧ writeVary.item.varyHeaders = (getVary resVary).map fun key => (key, resVary.get key) := by
  have hmem : writeVary ∈ (shouldCache (defaultConfig 0) "i" reqGet resVary).2 := by
    have h : (shouldCache (defaultConfig 0) "i" reqGet resVary).2 = [writeVary] := by
      with_unfolding_all rfl
    rw [h]
    exact List.mem_singleton.mpr rfl
  exact ⟨hmem, (claim10_varyCapture (defaultConfig 0) "i" reqGet resVary).1 writeVary hmem⟩

/-- Once the byte cap has been exceeded, the stream listener ignores every
further chunk. -/
theorem streamOnData_saturated (L : Nat) (chunks : List (List Nat)) :
    ∀ st : StreamState, st.length > L →
      chunks.foldl (streamOnData L) st = st := by
  induction chunks with
  | nil => intro st _; rfl
  | cons c cs ih =>
      intro st hst
      have h1 : streamOnData L st c = st := by
        simp [streamOnData, hst]
      rw [List.foldl_cons, h1]
      exact ih st hst

/-- Below the cap, one `data` event adds the chunk's bytes to the length and
retains the chunk when the new length still fits. -/
theorem streamOnData_step (L : Nat) (st : StreamState) (c : List Nat) (h : st.length ≤ L) :
    streamOnData L st c
      = { length := st.length + c.length
          strings := if st.length + c.length ≤ L then st.strings ++ [c] else st.strings } := by
  rw [streamOnData, if_neg (by omega)]
  split
  · rw [if_pos (by omega)]
  · rw [if_neg (by omega)]

/-- While the running total stays within the cap, every chunk is retained
and the length tracks the total exactly. -/
theorem streamOnData_within (L : Nat) (chunks : List (List Nat)) :
    ∀ st : StreamState, st.length + chunks.flatten.length ≤ L →
      chunks.foldl (streamOnData L) st
        = { length := st.length + chunks.flatten.length, strings := st.strings ++ chunks } := by
  induction chunks with
  | nil => intro st _; cases st; simp
  | cons c cs ih =>
      intro st hb
      rw [List.flatten_cons, List.length_append] at hb
      have h1 : streamOnData L st c
          = { length := st.length + c.length, strings := st.strings ++ [c] } := by
        rw [streamOnData_step L st c (by omega), if_pos (by omega)]
      rw [List.foldl_cons, h1,
        ih { length := st.length + c.length, strings := st.strings ++ [c] }
          (by show st.length + c.length + cs.flatten.length ≤ L; omega)]
      simp only [StreamState.mk.injEq, List.flatten_cons, List.length_append]
      exact ⟨by omega, by simp⟩

/-- If the total exceeds the cap, the final recorded length exceeds the
cap. -/
theorem streamOnData_exceeds (L : Nat) (chunks : List (List Nat)) :
    ∀ st : StreamState, st.length ≤ L → st.length + chunks.flatten.length > L →
      (chunks.foldl (streamOnData L) st).length > L := by
  induction chunks with
  | nil =>
      intro st h1 h2
      rw [List.flatten_nil] at h2
      simpa using h2
  | cons c cs ih =>
      intro st h1 h2
      rw [List.flatten_cons, List.length_append] at h2
      rw [List.foldl_cons, streamOnData_step L st c h1]
      by_cases h4 : st.length + c.length > L
      · rw [streamOnData_saturated L cs _ (by show st.length + c.length > L; omega)]
        show st.length + c.length > L
        omega
      · exact ih _ (by show st.length + c.length ≤ L; omega)
          (by show st.length + c.length + cs.flatten.length > L; omega)

/-- **C7**: the streaming serializer with byte cap `L`, fed chunks totalling
more than `L` bytes, invokes its completion callback with `(null, null)` on
stream end — so the store-write callback performs no write — while any chunk
list within the cap yields `(null, base64 of the concatenated bytes)`. -/
theorem claim7_streamCap (L : Nat) (chunks : List (List Nat)) :
    (chunks.flatten.length > L →
        streamStringifyEnd L chunks = none
        ∧ ∀ (cfg : Config) (id : String) (req : Request) (res : Response),
            setCache cfg id req res (.ok none) = [])
    ∧ (chunks.flatten.length ≤ L →
        streamStringifyEnd L chunks = some (base64Encode chunks.flatten)) := by
  constructor
  · intro hgt
    refine ⟨?_, fun cfg id req res => rfl⟩
    have h1 : (chunks.foldl (streamOnData L) { length := 0, strings := [] }).length > L :=
      streamOnData_exceeds L chunks { length := 0, strings := [] }
        (by show (0 : Nat) ≤ L; omega) (by show 0 + chunks.flatten.length > L; omega)
    rw [streamStringifyEnd, streamOnEnd, if_pos h1]
  · intro hle
    have h1 : chunks.foldl (streamOnData L) { length := 0, strings := [] }
        = { length := chunks.flatten.length, strings := chunks } := by
      have h2 := streamOnData_within L chunks { length := 0, strings := [] }
        (by show 0 + chunks.flatten.length ≤ L; omega)
      simpa using h2
    rw [streamStringifyEnd, h1, streamOnEnd,
      if_neg (by show ¬ chunks.flatten.length > L; omega)]

/-- **C7 witness**: an 11-byte stream against a 10-byte cap skips the cache;
the same stream against an 11-byte cap is encoded whole. -/
theorem claim7_streamCap_witness :
    [chunk11].flatten.length > 10
    ∧ streamStringifyEnd 10 [chunk11] = none
    ∧ (∀ (cfg : Config) (id : String) (req : Request) (res : Response),
        setCache cfg id req res (.ok none) = [])
    ∧ [chunk11].flatten.length ≤ 11
    ∧ streamStringifyEnd 11 [chunk11] = some (base64Encode [chunk11].flatten) :=
  ⟨by decide, ((claim7_streamCap 10 [chunk11]).1 (by decide)).1,
    ((claim7_streamCap 10 [chunk11]).1 (by decide)).2,
    by decide, (claim7_streamCap 11 [chunk11]).2 (by decide)⟩

/-- The character of a digit below ten is a digit character. -/
theorem isDigitChar_ofDigit (k : Nat) (h : k < 10) :
    isDigitChar (Char.ofNat (48 + k)) = true := by
  interval_cases k <;> decide

/-- The character of a digit below ten carries its value. -/
theorem digitVal_ofDigit (k : Nat) (h : k < 10) : digitVal (Char.ofNat (48 + k)) = k := by
  interval_cases k <;> decide

/-- Every character `natToDigits` emits is a digit character. -/
theorem natToDigits_digits (n : Nat) : ∀ c ∈ natToDigits n, isDigitChar c = true := by
  induction n using Nat.strong_induction_on with
  | _ n ih =>
    rw [natToDigits]
    split
    · intro c hc
      rw [List.mem_singleton] at hc
      subst hc
      exact isDigitChar_ofDigit n (by omega)
    · intro c hc
      rw [List.mem_append] at hc
      rcases hc with hc | hc
      · exact ih (n / 10) (Nat.div_lt_self (by omega) (by omega)) c hc
      · rw [List.mem_singleton] at hc
        subst hc
        exact isDigitChar_ofDigit (n % 10) (Nat.mod_lt _ (by omega))

/-- `natToDigits` never returns the empty list. -/
theorem natToDigits_ne_nil (n : Nat) : natToDigits n ≠ [] := by
  rw [natToDigits]
  split
  · simp
  · simp [natToDigits_ne_nil (n / 10)]
decreasing_by exact Nat.div_lt_self (by omega) (by omega)

/-- The leading digit of a positive number is not `'0'`. -/
theorem natToDigits_head_ne_zero (n : Nat) (hn : 1 ≤ n) :
    (natToDigits n).head? ≠ some '0' := by
  induction n using Nat.strong_induction_on with
  | _ n ih =>
    rw [natToDigits]
    split
    · rename_i h10
      have hne0 : Char.ofNat (48 + n) ≠ '0' := by
        interval_cases n <;> decide
      simpa using hne0
    · rename_i h10
      have hne := natToDigits_ne_nil (n / 10)
      match hd : natToDigits (n / 10) with
      | [] => exact absurd hd hne
      | a :: t =>
          have := ih (n / 10) (Nat.div_lt_self (by omega) (by omega))
            (Nat.one_le_div_iff (by omega) |>.mpr (by omega))
          rw [hd] at this
          simpa [hd] using this

/-- A single digit is a number below ten. -/
theorem natToDigits_small (n : Nat) (h : n < 10) : natToDigits n = [Char.ofNat (48 + n)] := by
  rw [natToDigits, dif_pos h]

/-- `natToDigits` in last-digit-first form for larger numbers. -/
theorem natToDigits_large (n : Nat) (h : ¬ n < 10) :
    natToDigits n = natToDigits (n / 10) ++ [Char.ofNat (48 + n % 10)] := by
  conv_lhs => rw [natToDigits]
  rw [dif_neg h]

/-- Folding the digit characters back recovers the number. -/
theorem digitsToNat_natToDigits (n : Nat) : digitsToNat (natToDigits n) = n := by
  induction n using Nat.strong_induction_on with
  | _ n ih =>
    by_cases h : n < 10
    · rw [natToDigits_small n h, digitsToNat]
      simp [digitVal_ofDigit n h]
    · rw [natToDigits_large n h, digitsToNat, List.foldl_append]
      have h1 := ih (n / 10) (Nat.div_lt_self (by omega) (by omega))
      rw [digitsToNat] at h1
      rw [h1]
      simp only [List.foldl_cons, List.foldl_nil]
      rw [digitVal_ofDigit (n % 10) (Nat.mod_lt _ (by omega))]
      omega

/-- `takeWhile` over a satisfying run followed by a non-satisfying (or empty)
remainder takes exactly the run. -/
theorem takeWhile_run (p : Char → Bool) (ds rest : List Char)
    (h1 : ∀ c ∈ ds, p c = true)
    (h2 : ∀ c, rest.head? = some c → p c = false) :
    (ds ++ rest).takeWhile p = ds := by
  induction ds with
  | nil =>
      match rest with
      | [] => rfl
      | c :: t => simp [List.takeWhile_cons, h2 c rfl]
  | cons d ds ih =>
      rw [List.cons_append, List.takeWhile_cons, h1 d (by simp)]
      simp [ih (fun c hc => h1 c (by simp [hc]))]

/-- The facts a number delimiter grants about the head of the remainder. -/
theorem numDelimOk_head (c : Char) (t : List Char) (h : numDelimOk (c :: t) = true) :
    isDigitChar c = false ∧ c ≠ '.' ∧ c ≠ 'e' ∧ c ≠ 'E' := by
  rw [numDelimOk] at h
  simp only [Bool.not_eq_true', Bool.or_eq_false_iff, decide_eq_false_iff_not] at h
  exact ⟨h.1.1.1, h.1.1.2, h.1.2, h.2⟩

/-- `parseJsonNumber` inverts `intToChars` whenever the remainder cannot
extend the number token. -/
theorem parseJsonNumber_intToChars (i : Int) (rest : List Char)
    (hr : numDelimOk rest = true) :
    parseJsonNumber (intToChars i ++ rest) = some (i, rest) := by
  have hstop : ∀ c, rest.head? = some c → isDigitChar c = false := by
    intro c hc
    match rest, hc with
    | r :: t, hc =>
        rw [List.head?_cons, Option.some_inj] at hc
        subst hc
        exact (numDelimOk_head r t hr).1
  have htake : (natToDigits i.natAbs ++ rest).takeWhile isDigitChar = natToDigits i.natAbs :=
    takeWhile_run isDigitChar (natToDigits i.natAbs) rest (natToDigits_digits i.natAbs) hstop
  have hdrop : (natToDigits i.natAbs ++ rest).drop (natToDigits i.natAbs).length = rest :=
    List.drop_left _ _
  have hlzero : ¬(1 < (natToDigits i.natAbs).length
      ∧ (natToDigits i.natAbs).head? = some '0') := by
    rintro ⟨hlen, hhead⟩
    have h1 : 1 ≤ i.natAbs := by
      by_contra h0
      have hz : i.natAbs = 0 := by omega
      rw [hz, natToDigits_small 0 (by omega)] at hlen
      simp at hlen
    exact natToDigits_head_ne_zero i.natAbs h1 hhead
  have hnotempty : (natToDigits i.natAbs).isEmpty = false := by
    match hd : natToDigits i.natAbs with
    | [] => exact absurd hd (natToDigits_ne_nil _)
    | a :: t => rfl
  have hext : ¬(rest.head? = some '.' ∨ rest.head? = some 'e' ∨ rest.head? = some 'E') := by
    rintro (hc | hc | hc) <;>
      · match rest, hc with
        | r :: t, hc =>
            rw [List.head?_cons, Option.some_inj] at hc
            obtain ⟨_, h2, h3, h4⟩ := numDelimOk_head r t hr
            subst hc
            first
              | exact h2 rfl
              | exact h3 rfl
              | exact h4 rfl
  by_cases hneg : i < 0
  · have hic : intToChars i = '-' :: natToDigits i.natAbs := by
      rw [intToChars, if_pos hneg]
    have hhd : (('-' :: natToDigits i.natAbs ++ rest)).head? = some '-' := by
      rw [List.cons_append, List.head?_cons]
    rw [hic, parseJsonNumber]
    simp only [List.cons_append, List.head?_cons, Option.some_inj, if_pos, List.tail_cons]
    rw [htake, hdrop, if_neg (by rw [hnotempty]; simp), if_neg hlzero, if_neg hext,
      digitsToNat_natToDigits]
    have hmul : (-1 : Int) * i.natAbs = i := by omega
    rw [hmul]
  · have hic : intToChars i = natToDigits i.natAbs := by
      rw [intToChars, if_neg hneg]
    have hhd : ¬ ((natToDigits i.natAbs ++ rest).head? = some '-') := by
      match hd : natToDigits i.natAbs with
      | [] => exact absurd hd (natToDigits_ne_nil _)
      | a :: t =>
          rw [List.cons_append, List.head?_cons, Option.some_inj]
          intro ha
          have := natToDigits_digits i.natAbs a (by rw [hd]; simp)
          rw [ha] at this
          exact absurd this (by decide)
    rw [hic, parseJsonNumber]
    simp only [hhd, if_false, ite_false]
    rw [htake, hdrop, if_neg (by rw [hnotempty]; simp), if_neg hlzero,
      if_neg hext, digitsToNat_natToDigits]
    have hmul : (1 : Int) * i.natAbs = i := by omega
    rw [hmul]

/-- `hexCharVal` inverts `hexDigitChar` below sixteen. -/
theorem hexCharVal_hexDigitChar (n : Nat) (h : n < 16) :
    hexCharVal (hexDigitChar n) = some n := by
  interval_cases n <;> decide

/-- Parsing one escaped character undoes `escapeJsonChar`. -/
theorem parseJsonStringBody_escape (c : Char) (acc rest : List Char) :
    parseJsonStringBody acc (escapeJsonChar c ++ rest) = parseJsonStringBody (c :: acc) rest := by
  rw [escapeJsonChar]
  by_cases h1 : c = '"'
  · subst h1; simp [parseJsonStringBody, unescapeJsonChar]
  · rw [if_neg h1]
    by_cases h2 : c = '\\'
    · subst h2; simp [parseJsonStringBody, unescapeJsonChar]
    · rw [if_neg h2]
      by_cases h3 : c = Char.ofNat 8
      · subst h3; simp [parseJsonStringBody, unescapeJsonChar]
      · rw [if_neg h3]
        by_cases h4 : c = Char.ofNat 12
        · subst h4; simp [parseJsonStringBody, unescapeJsonChar]
        · rw [if_neg h4]
          by_cases h5 : c = '\n'
          · subst h5; simp [parseJsonStringBody, unescapeJsonChar]
          · rw [if_neg h5]
            by_cases h6 : c = '\r'
            · subst h6; simp [parseJsonStringBody, unescapeJsonChar]
            · rw [if_neg h6]
              by_cases h7 : c = '\t'
              · subst h7; simp [parseJsonStringBody, unescapeJsonChar]
              · rw [if_neg h7]
                by_cases h8 : c.toNat < 32
                · rw [if_pos h8]
                  have hq1 : c.toNat / 16 < 16 := by omega
                  have hq2 : c.toNat % 16 < 16 := by omega
                  simp only [List.cons_append, List.nil_append, parseJsonStringBody,
                    hexCharVal_hexDigitChar _ hq1, hexCharVal_hexDigitChar _ hq2]
                  rw [show hexCharVal '0' = some 0 from by decide]
                  simp
                  have harith : c.toNat / 16 * 16 + c.toNat % 16 = c.toNat := by omega
                  rw [harith, Char.ofNat_toNat]
                · rw [if_neg h8, List.cons_append, List.nil_append]
                  have h32 : ¬ c.toNat < 32 := h8
                  rw [parseJsonStringBody.eq_def]
                  split
                  · rename_i heq
                    rw [List.cons.injEq] at heq
                    exact absurd heq.1 h1
                  · rename_i heq
                    rw [List.cons.injEq] at heq
                    exact absurd heq.1 h2
                  · rename_i e rest' heq
                    rw [List.cons.injEq] at heq
                    exact absurd heq.1 h2
                  · rename_i c' rest' heq
                    rw [List.cons.injEq] at heq
                    obtain ⟨hc', hrest'⟩ := heq
                    subst hc'
                    subst hrest'
                    rw [if_neg h32]
                  · rename_i heq
                    exact absurd heq (by simp)

/-- Parsing an escaped character run stops exactly at the closing quote,
reassembling the original characters. -/
theorem parseJsonStringBody_run (cs : List Char) : ∀ acc rest : List Char,
    parseJsonStringBody acc ((cs.map escapeJsonChar).flatten ++ '"' :: rest)
      = some (String.mk (acc.reverse ++ cs), rest) := by
  induction cs with
  | nil =>
      intro acc rest
      simp [parseJsonStringBody]
  | cons c cs ih =>
      intro acc rest
      rw [List.map_cons, List.flatten_cons, List.append_assoc, parseJsonStringBody_escape,
        ih (c :: acc) rest]
      simp

/-- The string-literal inverse: parsing the rendered body of `renderJsonString`
recovers the string. -/
theorem parseJsonStringBody_render (s : String) (rest : List Char) :
    parseJsonStringBody [] ((s.toList.map escapeJsonChar).flatten ++ '"' :: rest)
      = some (s, rest) := by
  rw [parseJsonStringBody_run s.toList [] rest]
  simp

/-- The facts a digit head grants for the value dispatch: it is not
whitespace, not a structural character, not a sign, and not the head of a
keyword. -/
theorem isDigitChar_facts (c : Char) (h : isDigitChar c = true) :
    (c = ' ' || c = '\t' || c = '\n' || c = '\r') = false
    ∧ c ≠ ']' ∧ c ≠ '}' ∧ c ≠ '-' ∧ c ≠ 'n' ∧ c ≠ 't' ∧ c ≠ 'f' ∧ c ≠ '"' ∧ c ≠ '['
    ∧ c ≠ '{' := by
  rw [isDigitChar] at h
  simp only [Bool.and_eq_true, decide_eq_true_eq] at h
  obtain ⟨hl, hr⟩ := h
  refine ⟨?_, ?_, ?_, ?_, ?_, ?_, ?_, ?_, ?_, ?_⟩
  · simp only [Bool.or_eq_false_iff, decide_eq_false_iff_not]
    refine ⟨⟨⟨fun hc => ?_, fun hc => ?_⟩, fun hc => ?_⟩, fun hc => ?_⟩ <;>
      · subst hc
        revert hl hr
        decide
  all_goals
    intro hc
    subst hc
    revert hl hr
    decide

/-- Every rendered JSON value begins with a character that is not whitespace
and closes neither an array nor an object. -/
theorem jsonRender_head (v : Json) :
    ∃ c t, jsonRender v = c :: t
      ∧ (c = ' ' || c = '\t' || c = '\n' || c = '\r') = false
      ∧ c ≠ ']' ∧ c ≠ '}' := by
  match v with
  | .null => exact ⟨'n', _, rfl, by decide, by decide, by decide⟩
  | .bool true => exact ⟨'t', _, rfl, by decide, by decide, by decide⟩
  | .bool false => exact ⟨'f', _, rfl, by decide, by decide, by decide⟩
  | .str s => exact ⟨'"', _, rfl, by decide, by decide, by decide⟩
  | .arr items => exact ⟨'[', _, rfl, by decide, by decide, by decide⟩
  | .obj members => exact ⟨'{', _, rfl, by decide, by decide, by decide⟩
  | .num i =>
      by_cases hneg : i < 0
      · refine ⟨'-', natToDigits i.natAbs, ?_, by decide, by decide, by decide⟩
        rw [jsonRender, intToChars, if_pos hneg]
      · match hd : natToDigits i.natAbs with
        | [] => exact absurd hd (natToDigits_ne_nil _)
        | c :: t =>
            have hc : isDigitChar c = true :=
              natToDigits_digits i.natAbs c (by rw [hd]; simp)
            obtain ⟨hws, hbr, hbc, _⟩ := isDigitChar_facts c hc
            refine ⟨c, t, ?_, hws, hbr, hbc⟩
            rw [jsonRender, intToChars, if_neg hneg, hd]

/-- `jsonRender` output is never empty. -/
theorem jsonRender_ne_nil (v : Json) : jsonRender v ≠ [] := by
  obtain ⟨c, t, heq, -⟩ := jsonRender_head v
  rw [heq]
  simp

/-- `skipJsonWs` leaves any list alone whose head is not whitespace. -/
theorem skipJsonWs_no_ws (c : Char) (l : List Char)
    (h : (c = ' ' || c = '\t' || c = '\n' || c = '\r') = false) :
    skipJsonWs (c :: l) = c :: l := by
  rw [skipJsonWs, if_neg]
  simp only [Bool.or_eq_false_iff, decide_eq_false_iff_not] at h
  simp only [Bool.or_eq_true, decide_eq_true_eq]
  rintro (((hc | hc) | hc) | hc)
  · exact h.1.1.1 hc
  · exact h.1.1.2 hc
  · exact h.1.2 hc
  · exact h.2 hc

/-- `skipJsonWs` is the identity on rendered output followed by anything. -/
theorem skipJsonWs_render (v : Json) (x : List Char) :
    skipJsonWs (jsonRender v ++ x) = jsonRender v ++ x := by
  obtain ⟨c, t, heq, hws, -⟩ := jsonRender_head v
  rw [heq, List.cons_append, skipJsonWs_no_ws c _ hws]

/-- A value whose input starts with a non-keyword, non-structural character is
dispatched to the number token parser. -/
theorem parseJsonValue_dispatch_num (f : Nat) (c0 : Char) (t : List Char)
    (hws : (c0 = ' ' || c0 = '\t' || c0 = '\n' || c0 = '\r') = false)
    (hbc : c0 ≠ '{') (hbk : c0 ≠ '[') (hq : c0 ≠ '"')
    (hf : c0 ≠ 'f') (ht : c0 ≠ 't') (hn : c0 ≠ 'n') :
    parseJsonValue (f + 1) (c0 :: t)
      = (match parseJsonNumber (c0 :: t) with
         | some (n, rest1) => some (Json.num n, rest1)
         | none => none) := by
  rw [parseJsonValue]
  rw [skipJsonWs_no_ws c0 t hws]
  simp [hn, ht, hf, hq, hbk, hbc]
  cases parseJsonNumber (c0 :: t) with
  | none => rfl
  | some p => rfl

/-- A nonempty rendered element list begins like its first element's
rendering. -/
theorem jsonRenderItems_head (x : Json) (xs : List Json) :
    ∃ c t, jsonRenderItems (x :: xs) = c :: t
      ∧ (c = ' ' || c = '\t' || c = '\n' || c = '\r') = false
      ∧ c ≠ ']' ∧ c ≠ '}' := by
  obtain ⟨c, t, heq, hws, hbr, hbc⟩ := jsonRender_head x
  match xs with
  | [] => exact ⟨c, t, by rw [jsonRenderItems, heq], hws, hbr, hbc⟩
  | y :: ys =>
      refine ⟨c, t ++ ',' :: jsonRenderItems (y :: ys), ?_, hws, hbr, hbc⟩
      rw [jsonRenderItems, heq, List.cons_append]

/-- The head equation of a nonempty rendered member list: it opens with the
first key's string literal. -/
theorem jsonRenderMembers_cons (k : String) (v : Json) (ms : List (String × Json)) :
    jsonRenderMembers ((k, v) :: ms)
      = renderJsonString k ++ ':' :: (jsonRender v ++
          (match ms with
           | [] => []
           | m :: ms' => ',' :: jsonRenderMembers (m :: ms'))) := by
  match ms with
  | [] => rw [jsonRenderMembers]; simp
  | m :: ms' => rw [jsonRenderMembers]; simp

/-- Rendered element lists are never empty. -/
theorem jsonRenderItems_ne_nil (x : Json) (xs : List Json) :
    jsonRenderItems (x :: xs) ≠ [] := by
  obtain ⟨c, t, heq, -⟩ := jsonRenderItems_head x xs
  rw [heq]
  simp

/-- `skipJsonWs` fixes a leading colon. -/
theorem skipJsonWs_colon (l : List Char) : skipJsonWs (':' :: l) = ':' :: l :=
  skipJsonWs_no_ws ':' l (by decide)

/-- `skipJsonWs` fixes a leading comma. -/
theorem skipJsonWs_comma (l : List Char) : skipJsonWs (',' :: l) = ',' :: l :=
  skipJsonWs_no_ws ',' l (by decide)

/-- `skipJsonWs` fixes a leading closing brace. -/
theorem skipJsonWs_rbrace (l : List Char) : skipJsonWs ('}' :: l) = '}' :: l :=
  skipJsonWs_no_ws '}' l (by decide)

mutual

/-- Round trip for one value: parsing a rendered value (with a
number-delimiting remainder and enough fuel) recovers it exactly. -/
theorem rtValue : ∀ (v : Json) (f : Nat) (rest : List Char),
    (jsonRender v).length < f → numDelimOk rest = true →
    parseJsonValue f (jsonRender v ++ rest) = some (v, rest)
  | .null, f, rest, hf, _ => by
      match f, hf with
      | g + 1, _ => simp [jsonRender, parseJsonValue, skipJsonWs]
  | .bool true, f, rest, hf, _ => by
      match f, hf with
      | g + 1, _ => simp [jsonRender, parseJsonValue, skipJsonWs]
  | .bool false, f, rest, hf, _ => by
      match f, hf with
      | g + 1, _ => simp [jsonRender, parseJsonValue, skipJsonWs]
  | .num i, f, rest, hf, hr => by
      match f, hf with
      | g + 1, hf =>
          by_cases hneg : i < 0
          · have hic : jsonRender (.num i) = '-' :: natToDigits i.natAbs := by
              rw [jsonRender, intToChars, if_pos hneg]
            rw [hic, List.cons_append,
              parseJsonValue_dispatch_num g '-' _ (by decide) (by decide) (by decide)
                (by decide) (by decide) (by decide) (by decide)]
            have hnum := parseJsonNumber_intToChars i rest hr
            rw [intToChars, if_pos hneg, List.cons_append] at hnum
            rw [hnum]
          · have hic : jsonRender (.num i) = natToDigits i.natAbs := by
              rw [jsonRender, intToChars, if_neg hneg]
            match hd : natToDigits i.natAbs with
            | [] => exact absurd hd (natToDigits_ne_nil _)
            | c0 :: t0 =>
                have hc : isDigitChar c0 = true :=
                  natToDigits_digits i.natAbs c0 (by rw [hd]; simp)
                obtain ⟨hws, _, _, _, hn, ht, hfc, hq, hbk, hbc⟩ := isDigitChar_facts c0 hc
                rw [hic, hd, List.cons_append,
                  parseJsonValue_dispatch_num g c0 _ hws hbc hbk hq hfc ht hn]
                have hnum := parseJsonNumber_intToChars i rest hr
                rw [intToChars, if_neg hneg, hd, List.cons_append] at hnum
                rw [hnum]
  | .str s, f, rest, hf, _ => by
      match f, hf with
      | g + 1, _ =>
          have hic : jsonRender (.str s) ++ rest
              = '"' :: ((s.toList.map escapeJsonChar).flatten ++ '"' :: rest) := by
            rw [jsonRender, renderJsonString]
            simp
          have hs := parseJsonStringBody_render s rest
          simp only [String.toList] at hs
          rw [hic, parseJsonValue, skipJsonWs_no_ws '"' _ (by decide)]
          simp [hs]
  | .arr [], f, rest, hf, _ => by
      match f, hf with
      | g + 1, _ => simp [jsonRender, jsonRenderItems, parseJsonValue, skipJsonWs]
  | .arr (x :: xs), f, rest, hf, _ => by
      match f, hf with
      | g + 1, hf =>
          obtain ⟨c, t, heq, hws, hbr, _⟩ := jsonRenderItems_head x xs
          have harg : jsonRender (.arr (x :: xs)) ++ rest
              = '[' :: (jsonRenderItems (x :: xs) ++ ']' :: rest) := by
            rw [jsonRender]
            simp
          have hlen : (jsonRenderItems (x :: xs)).length + 1 < g := by
            rw [jsonRender] at hf
            simp at hf
            omega
          have hitems := rtItems x xs g rest hlen
          have hconv : parseJsonItems g (c :: (t ++ ']' :: rest)) = some (x :: xs, rest) := by
            rw [← List.cons_append, ← heq]
            exact hitems
          have hskip2 : skipJsonWs (c :: (t ++ ']' :: rest)) = c :: (t ++ ']' :: rest) :=
            skipJsonWs_no_ws c _ hws
          rw [harg, parseJsonValue, skipJsonWs_no_ws '[' _ (by decide)]
          simp [heq, List.cons_append, hskip2, hbr, hconv]
  | .obj [], f, rest, hf, _ => by
      match f, hf with
      | g + 1, _ => simp [jsonRender, jsonRenderMembers, parseJsonValue, skipJsonWs]
  | .obj ((k, v) :: ms), f, rest, hf, _ => by
      match f, hf with
      | g + 1, hf =>
          have harg : jsonRender (.obj ((k, v) :: ms)) ++ rest
              = '{' :: (jsonRenderMembers ((k, v) :: ms) ++ '}' :: rest) := by
            rw [jsonRender]
            simp
          have hlen : (jsonRenderMembers ((k, v) :: ms)).length + 1 < g := by
            rw [jsonRender] at hf
            simp at hf
            omega
          have hmembers := rtMembers (k, v) ms g rest hlen
          obtain ⟨t0, hhead⟩ : ∃ t0, jsonRenderMembers ((k, v) :: ms) = '"' :: t0 := by
            rw [jsonRenderMembers_cons, renderJsonString, List.cons_append]
            exact ⟨_, rfl⟩
          have hconv : parseJsonMembers g ('"' :: (t0 ++ '}' :: rest))
              = some ((k, v) :: ms, rest) := by
            rw [← List.cons_append, ← hhead]
            exact hmembers
          have hskip2 : skipJsonWs ('"' :: (t0 ++ '}' :: rest)) = '"' :: (t0 ++ '}' :: rest) :=
            skipJsonWs_no_ws '"' _ (by decide)
          rw [harg, parseJsonValue, skipJsonWs_no_ws '{' _ (by decide)]
          simp [hhead, List.cons_append, hskip2, hconv]
  termination_by v _ _ _ _ => sizeOf v

/-- Round trip for a nonempty comma-separated element list up to its closing
bracket. -/
theorem rtItems : ∀ (x : Json) (xs : List Json) (f : Nat) (rest : List Char),
    (jsonRenderItems (x :: xs)).length + 1 < f →
    parseJsonItems f (jsonRenderItems (x :: xs) ++ ']' :: rest) = some (x :: xs, rest)
  | x, [], f, rest, hf => by
      match f, hf with
      | g + 1, hf =>
          rw [jsonRenderItems] at hf ⊢
          have hv := rtValue x g (']' :: rest) (by omega) rfl
          rw [parseJsonItems, hv]
          simp [skipJsonWs]
  | x, y :: ys, f, rest, hf => by
      match f, hf with
      | g + 1, hf =>
          rw [jsonRenderItems] at hf ⊢
          have hx1 : 1 ≤ (jsonRender x).length := by
            match hx : jsonRender x with
            | [] => exact absurd hx (jsonRender_ne_nil x)
            | c :: t => simp
          simp only [List.length_append, List.length_cons] at hf
          have hv := rtValue x g (',' :: (jsonRenderItems (y :: ys) ++ ']' :: rest))
            (by omega) rfl
          have hys := rtItems y ys g rest (by omega)
          rw [List.append_assoc, List.cons_append, parseJsonItems, hv]
          simp [skipJsonWs_comma, hys]
  termination_by x xs _ _ _ => sizeOf x + sizeOf xs

/-- Round trip for a nonempty comma-separated member list up to its closing
brace. -/
theorem rtMembers : ∀ (kv : String × Json) (ms : List (String × Json)) (f : Nat)
    (rest : List Char),
    (jsonRenderMembers (kv :: ms)).length + 1 < f →
    parseJsonMembers f (jsonRenderMembers (kv :: ms) ++ '}' :: rest) = some (kv :: ms, rest)
  | (k, v), [], f, rest, hf => by
      match f, hf with
      | g + 1, hf =>
          have hmem : jsonRenderMembers [(k, v)] ++ '}' :: rest
              = '"' :: ((k.toList.map escapeJsonChar).flatten
                  ++ '"' :: (':' :: (jsonRender v ++ '}' :: rest))) := by
            rw [jsonRenderMembers, renderJsonString]
            simp
          have hlenv : (jsonRender v).length < g := by
            rw [jsonRenderMembers, renderJsonString] at hf
            simp at hf
            omega
          have hv := rtValue v g ('}' :: rest) hlenv rfl
          have hk := parseJsonStringBody_render k (':' :: (jsonRender v ++ '}' :: rest))
          simp only [String.toList] at hk
          rw [hmem, parseJsonMembers, skipJsonWs_no_ws '"' _ (by decide)]
          simp [hk, skipJsonWs_colon, hv, skipJsonWs_rbrace]
  | (k, v), m :: ms, f, rest, hf => by
      match f, hf with
      | g + 1, hf =>
          have hmem : jsonRenderMembers ((k, v) :: m :: ms) ++ '}' :: rest
              = '"' :: ((k.toList.map escapeJsonChar).flatten
                  ++ '"' :: (':' :: (jsonRender v
                      ++ ',' :: (jsonRenderMembers (m :: ms) ++ '}' :: rest)))) := by
            rw [jsonRenderMembers, renderJsonString]
            simp
          have hlens : (jsonRender v).length < g
              ∧ (jsonRenderMembers (m :: ms)).length + 1 < g := by
            rw [jsonRenderMembers, renderJsonString] at hf
            simp at hf
            omega
          have hv := rtValue v g (',' :: (jsonRenderMembers (m :: ms) ++ '}' :: rest))
            hlens.1 rfl
          have hms := rtMembers m ms g rest hlens.2
          have hk := parseJsonStringBody_render k
            (':' :: (jsonRender v ++ ',' :: (jsonRenderMembers (m :: ms) ++ '}' :: rest)))
          simp only [String.toList] at hk
          rw [hmem, parseJsonMembers, skipJsonWs_no_ws '"' _ (by decide)]
          simp [hk, skipJsonWs_colon, hv, skipJsonWs_comma, hms]
  termination_by kv ms _ _ _ => sizeOf kv + sizeOf ms

end

/-- Parsing the standard serializer's rendering of a value recovers that
value: the round trip through `jsonStringify` then `jsonParse` is the
identity. -/
theorem jsonParse_stringify (v : Json) : jsonParse (jsonStringify v) = some v := by
  have hv := rtValue v ((jsonRender v).length + 1) [] (by omega) rfl
  rw [List.append_nil] at hv
  simp [jsonParse, jsonStringify, String.toList, hv, skipJsonWs]

/-- C8: for every body value `v` accepted by the standard JSON serializer,
`stringify` synchronously hands `jsonStringify v` to the completion callback
(returning the body unchanged), and `parse` applied to that string yields
exactly `v`. -/
theorem claim8_roundTrip (v : Json) :
    serializersStandard.stringify v = (v, some (.ok (some (jsonStringify v))))
    ∧ serializersStandard.parse (jsonStringify v) = .ok v := by
  refine ⟨rfl, ?_⟩
  simp [serializersStandard, jsonParse_stringify]
